import Mathlib

/-!
Shallow embedding of the ARKODE adaptive time-stepping control loop from
SUNDIALS (`src/arkode/arkode.c`, `src/arkode/arkode_ls.c`), together with
theorems about its error-weight subsystem, step-attempt loop, convergence /
constraint / temporal-error checks, initial step-size estimation and the
linear-solver interface adapter.

Machine reals (`sunrealtype`) are modelled by `ℚ`; vectors (`N_Vector`) by
`List ℚ` with componentwise operations.  Return codes are modelled by an
inductive type; the stepper, the step-size controller (`arkAdapt`) and the
right-hand-side function are oracles (explicit function parameters), matching
the specification's treatment of them as pluggable collaborators.
-/

namespace Arkode

/-! ### Vector operations

The concrete vector backend is external to the core sources.  Modelled from
the spec: the vector capability contract (linear sum, abs, scale, add-const,
invert, min, componentwise product, constraint mask, min-quotient) with the
standard SUNDIALS componentwise semantics. -/

/-- Componentwise `a*x + b*y` (`N_VLinearSum`). -/
def nvLinearSum (a : ℚ) (x : List ℚ) (b : ℚ) (y : List ℚ) : List ℚ :=
  List.zipWith (fun xi yi => a * xi + b * yi) x y

/-- Componentwise product (`N_VProd`). -/
def nvProd (x y : List ℚ) : List ℚ :=
  List.zipWith (· * ·) x y

/-- Componentwise absolute value (`N_VAbs`). -/
def nvAbs (x : List ℚ) : List ℚ :=
  x.map (fun v => |v|)

/-- Componentwise scaling (`N_VScale`). -/
def nvScale (c : ℚ) (x : List ℚ) : List ℚ :=
  x.map (fun v => c * v)

/-- Componentwise addition of a constant (`N_VAddConst`). -/
def nvAddConst (x : List ℚ) (b : ℚ) : List ℚ :=
  x.map (fun v => v + b)

/-- Componentwise inversion (`N_VInv`). -/
def nvInv (x : List ℚ) : List ℚ :=
  x.map (fun v => v⁻¹)

/-- Minimum entry of a vector (`N_VMin`); 0 on the empty vector, which the
integrator never passes. -/
def nvMin (x : List ℚ) : ℚ :=
  match x with
  | [] => 0
  | v :: vs => vs.foldl min v

/-- Single-component inequality-constraint test: constraint code 2 means
`x > 0`, 1 means `x ≥ 0`, -1 means `x ≤ 0`, -2 means `x < 0`, 0 means
unconstrained. -/
def constrOK (c x : ℚ) : Bool :=
  if c = 2 then decide (0 < x)
  else if c = 1 then decide (0 ≤ x)
  else if c = -1 then decide (x ≤ 0)
  else if c = -2 then decide (x < 0)
  else true

/-- Constraint mask (`N_VConstrMask`): the mask has a 1 at every violating
component and 0 elsewhere; the Bool is true when all constraints hold. -/
def nvConstrMask (c x : List ℚ) : Bool × List ℚ :=
  let m := List.zipWith (fun ci xi => if constrOK ci xi then (0 : ℚ) else 1) c x
  (m.all (fun v => v = 0), m)

/-- Stand-in for `SUN_BIG_REAL`, returned by `N_VMinQuotient` when every
denominator entry is zero. -/
def bigReal : ℚ := 10 ^ 308

/-- Minimum quotient (`N_VMinQuotient`): minimum of `num i / den i` over the
components with nonzero denominator, `bigReal` if there are none. -/
def nvMinQuotient (num den : List ℚ) : ℚ :=
  (List.zipWith (fun n d => if d = 0 then none else some (n / d)) num den).foldl
    (fun acc o => match o with | none => acc | some q => min acc q) bigReal

/-! ### Return codes

The public header `include/arkode/arkode.h` and the internal header
`arkode_impl.h` are not in the source tree (only the `.c` files are).
Modelled from the spec: ARKODE status codes are integers with `0` success,
`> 0` recoverable / retry requests, `< 0` fatal; here they are an inductive
type with an `isNeg` predicate mirroring the sign convention.  The constant
`ONEPSM` is taken from the sibling header `src/cvode/cvode_impl.h` in this
tree, which defines the identical roundoff fuzz `1.000001`. -/

/-- ARKODE status codes used by the evolve driver and its helper checks. -/
inductive RC where
  | success       -- ARK_SUCCESS (0)
  | retryStep     -- ARK_RETRY_STEP (> 0)
  | predictAgain  -- PREDICT_AGAIN (> 0, internal)
  | tryAgain      -- TRY_AGAIN (> 0, internal)
  | constrRecvr   -- CONSTR_RECVR (> 0, internal)
  | convFailure   -- ARK_CONV_FAILURE (< 0)
  | errFailure    -- ARK_ERR_FAILURE (< 0)
  | constrFail    -- ARK_CONSTR_FAIL (< 0)
  | reptdRhsfuncErr -- ARK_REPTD_RHSFUNC_ERR (< 0)
  | lsetupFail    -- ARK_LSETUP_FAIL (< 0)
  | lsolveFail    -- ARK_LSOLVE_FAIL (< 0)
  | rhsfuncFail   -- ARK_RHSFUNC_FAIL (< 0)
  | nlsOpErr      -- ARK_NLS_OP_ERR (< 0)
  deriving DecidableEq, Repr

/-- Sign of a status code: true exactly for the fatal (`< 0`) codes. -/
def RC.isNeg : RC → Bool
  | .convFailure | .errFailure | .constrFail | .reptdRhsfuncErr
  | .lsetupFail | .lsolveFail | .rhsfuncFail | .nlsOpErr => true
  | _ => false

/-- Nonlinear-solver outcome flag (`nflag`) as communicated between the
stepper, `arkCheckConvergence` and the predictor logic. -/
inductive NFlag where
  | success       -- ARK_SUCCESS
  | retryStep     -- ARK_RETRY_STEP
  | convFail      -- CONV_FAIL (recoverable nonlinear non-convergence)
  | rhsfuncRecvr  -- RHSFUNC_RECVR (recoverable right-hand-side failure)
  | lsetupFail    -- ARK_LSETUP_FAIL (< 0)
  | lsolveFail    -- ARK_LSOLVE_FAIL (< 0)
  | rhsfuncFail   -- ARK_RHSFUNC_FAIL (< 0)
  | otherFatal    -- any other fatal (< 0) code
  | firstCall     -- FIRST_CALL (driver-written hint)
  | prevConvFail  -- PREV_CONV_FAIL (driver-written hint)
  | prevErrFail   -- PREV_ERR_FAIL (driver-written hint)
  deriving DecidableEq, Repr

/-- Sign of an `nflag` value: true exactly for the fatal (`< 0`) codes. -/
def NFlag.isNeg : NFlag → Bool
  | .lsetupFail | .lsolveFail | .rhsfuncFail | .otherFatal => true
  | _ => false

/-- The roundoff fuzz factor `ONEPSM = 1.000001` (value from
`src/cvode/cvode_impl.h`; `arkode_impl.h` is not in the tree). -/
def onepsm : ℚ := 1000001 / 1000000

/-! ### Integrator state

`ARKodeMem` is split into an immutable configuration record `Cfg` (tolerance
and retry limits, mode flags, fixed adaptivity factors — fields the evolve
loop never writes) and a mutable state record `ArkMem`. -/

/-- Configuration fields of `ARKodeMem` that the step-attempt loop reads but
never writes. -/
structure Cfg where
  hmin : ℚ
  hmax_inv : ℚ
  etacf : ℚ
  etamxf : ℚ
  small_nef : ℕ
  maxncf : ℕ
  maxnef : ℕ
  maxconstrfails : ℕ
  fixedstep : Bool
  force_pass : Bool
  constraintsSet : Bool
  constraints : List ℚ
  deriving DecidableEq, Repr

/-- Mutable fields of `ARKodeMem` used by the step-attempt loop.  `tret`
models the caller's `*tret` output slot, which `ARKodeEvolve` writes together
with `tretlast`; `ycur` aliases the caller's output vector `yout`
(`ark_mem->ycur = yout` at the top of `ARKodeEvolve`). -/
structure ArkMem where
  h : ℚ
  eta : ℚ
  etamax : ℚ
  tn : ℚ
  tcur : ℚ
  tret : ℚ
  tretlast : ℚ
  yn : List ℚ
  ycur : List ℚ
  ncfn : ℕ
  netf : ℕ
  nconstrfails : ℕ
  nst_attempts : ℕ
  deriving DecidableEq, Repr

/-! ### Error-weight subsystem (`arkEwtSetSS` / `arkEwtSetSV`) -/

/-- Tolerance data recorded by `ARKodeSStolerances` /`ARKodeSVtolerances`:
relative tolerance, scalar absolute tolerance, vector absolute tolerance and
the `atolmin0` flag. -/
structure TolMem where
  reltol : ℚ
  Sabstol : ℚ
  Vabstol : List ℚ
  atolmin0 : Bool
  deriving DecidableEq, Repr

/-- The tolerance state produced by `ARKodeSStolerances(reltol, abstol)`:
records the tolerances and sets `atolmin0 = (abstol == 0)`. -/
def mkSSTol (reltol abstol : ℚ) : TolMem :=
  { reltol := reltol, Sabstol := abstol, Vabstol := [], atolmin0 := abstol = 0 }

/-- The tolerance state produced by `ARKodeSVtolerances(reltol, abstol)`:
records the tolerances and sets `atolmin0 = (min(abstol) == 0)`. -/
def mkSVTol (reltol : ℚ) (abstol : List ℚ) : TolMem :=
  { reltol := reltol, Sabstol := 0, Vabstol := abstol,
    atolmin0 := nvMin abstol = 0 }

/-- `arkEwtSetSS`: computes `tempv1 = reltol*|y| + abstol`; when `atolmin0`
is set it fails (returns -1, modelled `none`) if `min(tempv1) ≤ 0`, and
otherwise sets `weight = 1/tempv1` and returns 0 (modelled `some weight`). -/
def arkEwtSetSS (t : TolMem) (ycur : List ℚ) : Option (List ℚ) :=
  let t1 := nvAddConst (nvScale t.reltol (nvAbs ycur)) t.Sabstol
  if t.atolmin0 ∧ nvMin t1 ≤ 0 then none
  else some (nvInv t1)

/-- `arkEwtSetSV`: as `arkEwtSetSS` with the componentwise vector absolute
tolerance, via `N_VLinearSum(reltol, |y|, 1, Vabstol)`. -/
def arkEwtSetSV (t : TolMem) (ycur : List ℚ) : Option (List ℚ) :=
  let t1 := nvLinearSum t.reltol (nvAbs ycur) 1 t.Vabstol
  if t.atolmin0 ∧ nvMin t1 ≤ 0 then none
  else some (nvInv t1)

/-! ### `arkCheckConvergence`

Embedding of `arkCheckConvergence` (arkode.c).  The `hadapt_mem == NULL`
defensive branch is omitted: the adaptivity record is always attached in this
model, its mutable field `etamax` living in `ArkMem`. -/

/-- Result of one helper check: status code, updated memory, updated `nflag`
and updated per-step counter. -/
structure CheckOut where
  rc : RC
  m : ArkMem
  nflag : NFlag
  cnt : ℕ
  deriving DecidableEq, Repr

/-- `arkCheckConvergence`: inspects the stepper-reported `nflag`; success and
`ARK_RETRY_STEP` pass straight through; otherwise `ncfn` is incremented, a
fixed-step run fails with `ARK_CONV_FAILURE`, fatal `nflag` codes are mapped
to their driver codes, and recoverable failures increment `ncf`, pin
`etamax = 1`, and either become fatal (`ncf == maxncf` or `|h| ≤ hmin*ONEPSM`)
or set `eta = etacf`, signal `PREV_CONV_FAIL`, and return `PREDICT_AGAIN`. -/
def arkCheckConvergence (c : Cfg) (m : ArkMem) (nflag : NFlag) (ncf : ℕ) :
    CheckOut :=
  if nflag = .success then ⟨.success, m, nflag, ncf⟩
  else if nflag = .retryStep then ⟨.retryStep, m, nflag, ncf⟩
  else
    let m := { m with ncfn := m.ncfn + 1 }
    if c.fixedstep then ⟨.convFailure, m, nflag, ncf⟩
    else if nflag.isNeg then
      ⟨match nflag with
        | .lsetupFail => .lsetupFail
        | .lsolveFail => .lsolveFail
        | .rhsfuncFail => .rhsfuncFail
        | _ => .nlsOpErr, m, nflag, ncf⟩
    else
      let ncf := ncf + 1
      let m := { m with etamax := 1 }
      if (ncf = c.maxncf ∨ |m.h| ≤ c.hmin * onepsm) ∧ nflag = .convFail then
        ⟨.convFailure, m, nflag, ncf⟩
      else if (ncf = c.maxncf ∨ |m.h| ≤ c.hmin * onepsm) ∧
          nflag = .rhsfuncRecvr then
        ⟨.reptdRhsfuncErr, m, nflag, ncf⟩
      else
        ⟨.predictAgain, { m with eta := c.etacf }, .prevConvFail, ncf⟩

/-! ### `arkCheckConstraints` -/

/-- `arkCheckConstraints`: checks the inequality constraints on `ycur` via a
constraint mask; on violation it counts the failure and either fails fatally
(`constrfails == maxconstrfails`, fixed-step mode, or `|h| ≤ hmin*ONEPSM`) or
shrinks via `eta = max(0.9 * minQuotient(yn, mask*(yn - ycur)), 0.1)`,
signals `PREV_CONV_FAIL`, and returns `CONSTR_RECVR`. -/
def arkCheckConstraints (c : Cfg) (m : ArkMem) (nflag : NFlag)
    (constrfails : ℕ) : CheckOut :=
  let mres := nvConstrMask c.constraints m.ycur
  if mres.1 then ⟨.success, m, nflag, constrfails⟩
  else
    let m := { m with nconstrfails := m.nconstrfails + 1 }
    let cf := constrfails + 1
    if cf = c.maxconstrfails then ⟨.constrFail, m, nflag, cf⟩
    else if c.fixedstep then ⟨.constrFail, m, nflag, cf⟩
    else if |m.h| ≤ c.hmin * onepsm then ⟨.constrFail, m, nflag, cf⟩
    else
      let tmp := nvProd mres.2 (nvLinearSum 1 m.yn (-1) m.ycur)
      let eta := max ((9 / 10) * nvMinQuotient m.yn tmp) (1 / 10)
      ⟨.constrRecvr, { m with eta := eta }, .prevConvFail, cf⟩

/-! ### `arkCheckTemporalError`

The pluggable step-size controller call `arkAdapt` (arkode_adapt.c, not in
the source tree) is an oracle: `adaptRes = none` models a controller failure,
`adaptRes = some e` models the controller recommending `eta = e`. -/

/-- The step-size bound enforcement applied by `arkCheckTemporalError`:
clamp `eta` into `[hmin/|h|, etamax]`, then divide by
`max(1, |h|*hmax_inv*eta)` so the resulting step respects `hmax_inv`. -/
def applyEtaBounds (etamax hmin habs hmax_inv eta : ℚ) : ℚ :=
  let e1 := min eta etamax
  let e2 := max e1 (hmin / habs)
  e2 / max 1 (habs * hmax_inv * e2)

/-- `arkCheckTemporalError`: lets the controller recommend `eta`, enforces
the step-size bounds on it, accepts when `dsm ≤ 1`; otherwise it counts the
error-test failure, signals `PREV_ERR_FAIL`, fails fatally at
`nef == maxnef`, pins `etamax = 1`, applies the `etamxf` shrink bound once
`nef ≥ small_nef`, re-enforces the bounds, and returns `TRY_AGAIN`. -/
def arkCheckTemporalError (c : Cfg) (m : ArkMem) (nflag : NFlag) (nef : ℕ)
    (dsm : ℚ) (adaptRes : Option ℚ) : CheckOut :=
  match adaptRes with
  | none => ⟨.errFailure, m, nflag, nef⟩
  | some etaRec =>
    let m := { m with
      eta := applyEtaBounds m.etamax c.hmin |m.h| c.hmax_inv etaRec }
    if dsm ≤ 1 then ⟨.success, m, nflag, nef⟩
    else
      let nef := nef + 1
      let m := { m with netf := m.netf + 1 }
      let nflag := NFlag.prevErrFail
      if nef = c.maxnef then ⟨.errFailure, m, nflag, nef⟩
      else
        let m := { m with etamax := 1 }
        let m := if c.small_nef ≤ nef then
            { m with eta := min m.eta c.etamxf } else m
        let m := { m with
          eta := applyEtaBounds m.etamax c.hmin |m.h| c.hmax_inv m.eta }
        ⟨.tryAgain, m, nflag, nef⟩

/-! ### The step-attempt loop of `ARKodeEvolve`

The pluggable stepper is an oracle: each attempt yields a `StepOutcome`.
Relaxation (`arkRelax`, arkode_relaxation.c, not in the source tree) is
modelled as disabled (`relax_enabled` off). -/

/-- Outcome of one stepper invocation: success with error estimate `dsm`, an
`ARK_RETRY_STEP` request, a recoverable nonlinear-convergence or
right-hand-side failure, or a fatal code. -/
inductive StepRes where
  | ok (dsm : ℚ)
  | retry
  | convFail
  | rhsfuncRecvr
  | fail (rc : RC)
  deriving DecidableEq, Repr

/-- One oracle answer for a stepper call: the outcome, the contents the
stepper leaves in `ycur` (ignored for `retry`, which rejects the step size
before performing calculations), and the step-size controller's
recommendation for the subsequent `arkAdapt` call. -/
structure StepOutcome where
  res : StepRes
  ycur : List ℚ
  adapt : Option ℚ
  deriving DecidableEq, Repr

/-- The `nflag` value the stepper reports together with each outcome. -/
def StepRes.nflag : StepRes → NFlag
  | .ok _ => .success
  | .retry => .retryStep
  | .convFail => .convFail
  | .rhsfuncRecvr => .rhsfuncRecvr
  | .fail _ => .otherFatal

/-- Local variables of the step-attempt loop in `ARKodeEvolve` together with
the integrator memory. -/
structure LoopVars where
  m : ArkMem
  kflag : RC
  nflag : NFlag
  dsm : ℚ
  attempts : ℕ
  ncf : ℕ
  nef : ℕ
  constrfails : ℕ
  deriving DecidableEq, Repr

/-- The loop-local initialization before the first attempt:
`dsm = 0, kflag = ARK_SUCCESS, attempts = ncf = nef = constrfails = 0,
nflag = FIRST_CALL`. -/
def initLoopVars (m : ArkMem) : LoopVars :=
  { m := m, kflag := .success, nflag := .firstCall, dsm := 0
    attempts := 0, ncf := 0, nef := 0, constrfails := 0 }

/-- The attempt accounting at the top of each loop iteration: `attempts` and
`nst_attempts` are incremented unless the previous `kflag` was
`ARK_RETRY_STEP`. -/
def countStep (v : LoopVars) : LoopVars :=
  if v.kflag = .retryStep then v
  else
    { v with
      attempts := v.attempts + 1
      m := { v.m with nst_attempts := v.m.nst_attempts + 1 } }

/-- Result of one iteration of the step-attempt loop: continue looping,
break out of the loop (with `kflag` recording success or a fatal code), or
the direct `return (ARK_ERR_FAILURE)` taken when an unsuccessful attempt
has `|h| ≤ hmin*ONEPSM`. -/
inductive IterResult where
  | next (v : LoopVars)
  | breakLoop (v : LoopVars)
  | errReturn (v : LoopVars)
  deriving DecidableEq, Repr

/-- The `LoopVars` carried by an `IterResult`. -/
def IterResult.varsOf : IterResult → LoopVars
  | .next v => v
  | .breakLoop v => v
  | .errReturn v => v

/-- Whether an `IterResult` continues the loop. -/
def IterResult.isNext : IterResult → Bool
  | .next _ => true
  | _ => false

/-- One iteration of the step-attempt loop of `ARKodeEvolve`: attempt
accounting, the stepper call, `arkCheckConvergence`, constraint handling,
the fixed-step early break, `arkCheckTemporalError`, the `force_pass`
override, the success break, the `|h| ≤ hmin*ONEPSM` direct error return,
and the `h *= eta` update before the next attempt. -/
def loopIter (c : Cfg) (v : LoopVars) (o : StepOutcome) : IterResult :=
  let v := countStep v
  match o.res with
  | .fail rc =>
    .breakLoop { v with kflag := rc, m := { v.m with ycur := o.ycur } }
  | res =>
    let m0 := if res = .retry then v.m else { v.m with ycur := o.ycur }
    let dsm := match res with | .ok d => d | _ => v.dsm
    let r1 := arkCheckConvergence c m0 res.nflag v.ncf
    if r1.rc.isNeg then
      .breakLoop
        { m := r1.m, kflag := r1.rc, nflag := r1.nflag, dsm := dsm
          attempts := v.attempts, ncf := r1.cnt, nef := v.nef
          constrfails := v.constrfails }
    else
      let r2 := if c.constraintsSet ∧ r1.rc = .success then
          arkCheckConstraints c r1.m r1.nflag v.constrfails
        else ⟨r1.rc, r1.m, r1.nflag, v.constrfails⟩
      if r2.rc.isNeg then
        .breakLoop
          { m := r2.m, kflag := r2.rc, nflag := r2.nflag, dsm := dsm
            attempts := v.attempts, ncf := r1.cnt, nef := v.nef
            constrfails := r2.cnt }
      else if c.fixedstep then
        .breakLoop
          { m := { r2.m with eta := 1 }, kflag := r2.rc
            nflag := r2.nflag, dsm := dsm, attempts := v.attempts
            ncf := r1.cnt, nef := v.nef, constrfails := r2.cnt }
      else
        let r3 := if r2.rc = .success then
            arkCheckTemporalError c r2.m r2.nflag v.nef dsm o.adapt
          else ⟨r2.rc, r2.m, r2.nflag, v.nef⟩
        if r3.rc.isNeg then
          .breakLoop
            { m := r3.m, kflag := r3.rc, nflag := r3.nflag
              dsm := dsm, attempts := v.attempts, ncf := r1.cnt, nef := r3.cnt
              constrfails := r2.cnt }
        else if c.force_pass then
          .breakLoop
            { m := r3.m, kflag := .success, nflag := r3.nflag
              dsm := dsm, attempts := v.attempts, ncf := r1.cnt, nef := r3.cnt
              constrfails := r2.cnt }
        else if r3.rc = .success then
          .breakLoop
            { m := r3.m, kflag := .success, nflag := r3.nflag
              dsm := dsm, attempts := v.attempts, ncf := r1.cnt, nef := r3.cnt
              constrfails := r2.cnt }
        else if |r3.m.h| ≤ c.hmin * onepsm then
          .errReturn
            { m := r3.m, kflag := r3.rc, nflag := r3.nflag
              dsm := dsm, attempts := v.attempts, ncf := r1.cnt, nef := r3.cnt
              constrfails := r2.cnt }
        else
          .next
            { m := { r3.m with h := r3.m.h * r3.m.eta }, kflag := r3.rc
              nflag := r3.nflag, dsm := dsm, attempts := v.attempts
              ncf := r1.cnt, nef := r3.cnt, constrfails := r2.cnt }

/-- Outcome of running the step-attempt loop to completion (with fuel). -/
inductive LoopOutcome where
  | spun (v : LoopVars)
  | broke (v : LoopVars)
  | errReturn (v : LoopVars)
  deriving DecidableEq, Repr

/-- The `LoopVars` carried by a `LoopOutcome`. -/
def LoopOutcome.varsOf : LoopOutcome → LoopVars
  | .spun v => v
  | .broke v => v
  | .errReturn v => v

/-- Run the step-attempt loop on a finite script of stepper answers, one per
attempt; an exhausted script reports the pending loop state as `spun`. -/
def runLoop (c : Cfg) : List StepOutcome → LoopVars → LoopOutcome
  | [], v => .spun v
  | o :: rest, v =>
    match loopIter c v o with
    | .next v' => runLoop c rest v'
    | .breakLoop v' => .broke v'
    | .errReturn v' => .errReturn v'

/-- The successful-step epilogue `arkCompleteStep` restricted to the fields
modelled here: advance `tcur = tn + h` and copy `ycur` into `yn`. -/
def arkCompleteStepModel (m : ArkMem) : ArkMem :=
  { m with tcur := m.tn + m.h, yn := m.ycur }

/-- How one pass through the step-attempt phase of `ARKodeEvolve` ends:
completed step; failure handled after the loop (which sets
`tretlast = *tret = tcur` and copies `yn` into `yout` before returning
`arkHandleFailure`'s code); the direct `ARK_ERR_FAILURE` return from inside
the loop (which touches neither `yout` nor `*tret`); or out of fuel. -/
inductive PhaseResult where
  | completed (m : ArkMem)
  | failedRestored (rc : RC) (m : ArkMem)
  | failedDirect (m : ArkMem)
  | spun (v : LoopVars)
  deriving DecidableEq, Repr

/-- True when the phase ended in a failure whose output vector or output
time was not left at the last known-good solution (`ycur ≠ yn` or
`tret ≠ tcur`). -/
def PhaseResult.unrestoredFailure : PhaseResult → Bool
  | .failedRestored _ m => decide (¬(m.ycur = m.yn ∧ m.tret = m.tcur))
  | .failedDirect m => decide (¬(m.ycur = m.yn ∧ m.tret = m.tcur))
  | _ => false

/-- The step-attempt phase of one `ARKodeEvolve` body iteration: run the
attempt loop, then either complete the step, or process the failure
(restore `yout` to `yn`, set `*tret = tcur`), or propagate the direct
`ARK_ERR_FAILURE` return unprocessed. -/
def attemptPhase (c : Cfg) (os : List StepOutcome) (v : LoopVars) :
    PhaseResult :=
  match runLoop c os v with
  | .spun v => .spun v
  | .errReturn v => .failedDirect v.m
  | .broke v =>
    if v.kflag = .success then .completed (arkCompleteStepModel v.m)
    else
      .failedRestored v.kflag
        { v.m with tret := v.m.tcur, tretlast := v.m.tcur, ycur := v.m.yn }

/-! ### Attempt accounting of the step-attempt loop

`cfCap` bounds the per-step constraint-failure counter: the loop retries a
constraint failure only while `constrfails + 1 ≠ maxconstrfails`, so with
constraint handling enabled at most `maxconstrfails - 1` retries occur;
with it disabled the counter never moves.  `LoopInv` is the loop-top
invariant tying the attempt counter to the three per-step failure counters
(the `kflag = ARK_RETRY_STEP` case covers the uncounted re-attempt).
`convTail`/`constrTail`/`tempTail` name the stages of `loopIter` after the
stepper call so each stage can be analysed once. -/

/-- Largest value the per-step constraint-failure counter can hold while
the loop keeps retrying. -/
def cfCap (c : Cfg) : ℕ :=
  if c.constraintsSet then c.maxconstrfails - 1 else 0

/-- Loop-top invariant of the step-attempt loop: the attempt count is paced
by the failure counters, and each counter sits strictly below its fatal
threshold. -/
def LoopInv (c : Cfg) (v : LoopVars) : Prop :=
  v.attempts + (if v.kflag = RC.retryStep then 0 else 1)
      ≤ v.ncf + v.nef + v.constrfails + 1
  ∧ v.ncf + 1 ≤ c.maxncf
  ∧ v.nef + 1 ≤ c.maxnef
  ∧ v.constrfails ≤ cfCap c

/-- The tail of `loopIter` after `arkCheckTemporalError` (result `r3`):
the fatal break, the `force_pass` break, the success break, the direct
`ARK_ERR_FAILURE` return, and the `h *= eta` continuation. -/
def tempTail (c : Cfg) (r3 : CheckOut) (A ncf1 cf1 : ℕ) (dsm : ℚ) :
    IterResult :=
  if r3.rc.isNeg then
    .breakLoop
      { m := r3.m, kflag := r3.rc, nflag := r3.nflag
        dsm := dsm, attempts := A, ncf := ncf1, nef := r3.cnt
        constrfails := cf1 }
  else if c.force_pass then
    .breakLoop
      { m := r3.m, kflag := .success, nflag := r3.nflag
        dsm := dsm, attempts := A, ncf := ncf1, nef := r3.cnt
        constrfails := cf1 }
  else if r3.rc = .success then
    .breakLoop
      { m := r3.m, kflag := .success, nflag := r3.nflag
        dsm := dsm, attempts := A, ncf := ncf1, nef := r3.cnt
        constrfails := cf1 }
  else if |r3.m.h| ≤ c.hmin * onepsm then
    .errReturn
      { m := r3.m, kflag := r3.rc, nflag := r3.nflag
        dsm := dsm, attempts := A, ncf := ncf1, nef := r3.cnt
        constrfails := cf1 }
  else
    .next
      { m := { r3.m with h := r3.m.h * r3.m.eta }, kflag := r3.rc
        nflag := r3.nflag, dsm := dsm, attempts := A
        ncf := ncf1, nef := r3.cnt, constrfails := cf1 }

/-- The tail of `loopIter` after the constraint stage (result `r2`): the
fatal break, the fixed-step break, and the gated `arkCheckTemporalError`
call feeding `tempTail`. -/
def constrTail (c : Cfg) (r2 : CheckOut) (A ncf1 nef0 : ℕ) (dsm : ℚ)
    (adapt : Option ℚ) : IterResult :=
  if r2.rc.isNeg then
    .breakLoop
      { m := r2.m, kflag := r2.rc, nflag := r2.nflag, dsm := dsm
        attempts := A, ncf := ncf1, nef := nef0, constrfails := r2.cnt }
  else if c.fixedstep then
    .breakLoop
      { m := { r2.m with eta := 1 }, kflag := r2.rc
        nflag := r2.nflag, dsm := dsm, attempts := A
        ncf := ncf1, nef := nef0, constrfails := r2.cnt }
  else
    tempTail c
      (if r2.rc = .success then
        arkCheckTemporalError c r2.m r2.nflag nef0 dsm adapt
      else ⟨r2.rc, r2.m, r2.nflag, nef0⟩)
      A ncf1 r2.cnt dsm

/-- The tail of `loopIter` after `arkCheckConvergence` (result `r1`): the
fatal break and the gated `arkCheckConstraints` call feeding
`constrTail`. -/
def convTail (c : Cfg) (r1 : CheckOut) (A nef0 cf0 : ℕ) (dsm : ℚ)
    (adapt : Option ℚ) : IterResult :=
  if r1.rc.isNeg then
    .breakLoop
      { m := r1.m, kflag := r1.rc, nflag := r1.nflag, dsm := dsm
        attempts := A, ncf := r1.cnt, nef := nef0, constrfails := cf0 }
  else
    constrTail c
      (if c.constraintsSet ∧ r1.rc = .success then
        arkCheckConstraints c r1.m r1.nflag cf0
      else ⟨r1.rc, r1.m, r1.nflag, cf0⟩)
      A r1.cnt nef0 dsm adapt

/-! ### Initial step-size estimation (`arkHin`)

`arkYddNorm` is an oracle (`YddRes`): it either produces the norm of the
second-derivative estimate, fails recoverably, or fails fatally.  `SUNRsqrt`
(libm `sqrt`, external) is a function parameter `rsqrt`.  The iteration
count `H0_ITERS` and bias `H0_BIAS` live in the missing `arkode_impl.h`, so
they are parameters `iters` and `bias`. -/

/-- Oracle answer for one `arkYddNorm` call. -/
inductive YddRes where
  | ok (nrm : ℚ)
  | recvr
  | fatal
  deriving DecidableEq, Repr

/-- Result of `arkHin`'s search loop. -/
inductive HinRes where
  | rhsFail
  | reptdRhsErr
  | done (h0 : ℚ)
  deriving DecidableEq, Repr

/-- Result of the inner attempt loop of `arkHin`. -/
inductive InnerRes where
  | fatal
  | exhausted (hg : ℚ) (calls : ℕ)
  | ok (hg : ℚ) (nrm : ℚ) (calls : ℕ)
  deriving DecidableEq, Repr

/-- The inner loop of `arkHin` (`count2 = 1..H0_ITERS`): each recoverable
`arkYddNorm` failure shrinks the trial step by the fixed factor `0.2` and
retries; a fatal failure aborts; exhaustion reports the final trial value. -/
def hinInner (O : ℕ → YddRes) : ℕ → ℚ → ℕ → InnerRes
  | 0, hg, cidx => .exhausted hg cidx
  | n + 1, hg, cidx =>
    match O cidx with
    | .fatal => .fatal
    | .ok nrm => .ok hg nrm (cidx + 1)
    | .recvr => hinInner O n (hg * (1 / 5)) (cidx + 1)

/-- The outer loop of `arkHin` (`count1 = 1..H0_ITERS`), with `hs` the most
recent trial step that passed through `f`: on inner-loop exhaustion return
`ARK_REPTD_RHSFUNC_ERR` if `count1 ≤ 2` and otherwise fall back to `hs`;
on success propose
`hnew = (yddnrm*hub² > 2) ? sqrt(2/yddnrm) : sqrt(hg*hub)`, stop on the
last pass, accept when `1/2 < hnew/hg < 2`, reuse `hg` when the ratio looks
like cancellation error (`count1 > 1` and ratio `> 2`), else iterate. -/
def hinOuter (O : ℕ → YddRes) (rsqrt : ℚ → ℚ) (iters : ℕ) (hub : ℚ) :
    ℕ → ℕ → ℕ → ℚ → ℚ → HinRes
  | 0, _, _, _, hs => .done hs
  | fuel + 1, count1, cidx, hg, hs =>
    match hinInner O iters hg cidx with
    | .fatal => .rhsFail
    | .exhausted _ _ => if count1 ≤ 2 then .reptdRhsErr else .done hs
    | .ok hg' nrm cidx' =>
      let hnew := if 2 < nrm * hub * hub then rsqrt (2 / nrm)
        else rsqrt (hg' * hub)
      if count1 = iters then .done hnew
      else
        let hrat := hnew / hg'
        if 1 / 2 < hrat ∧ hrat < 2 then .done hnew
        else if 1 < count1 ∧ 2 < hrat then .done hg'
        else hinOuter O rsqrt iters hub fuel (count1 + 1) cidx' hnew hg'

/-- The final bound-and-bias step of `arkHin`: `h0 = bias*hnew` clamped into
`[hlb, hub]`, with the integration direction's sign attached. -/
def arkHinFinish (bias hlb hub : ℚ) (fwd : Bool) (hnew : ℚ) : ℚ :=
  let h0 := bias * hnew
  let h0 := if h0 < hlb then hlb else h0
  let h0 := if hub < h0 then hub else h0
  if fwd then h0 else -h0

/-- The search phase of `arkHin`, starting at `count1 = 1` with first trial
`hg0` (and `hs` initialized to `hg0`): runs the outer loop and applies the
final bias and bounds on success. -/
def arkHinSearch (O : ℕ → YddRes) (rsqrt : ℚ → ℚ) (iters : ℕ)
    (bias hlb hub : ℚ) (fwd : Bool) (hg0 : ℚ) : HinRes :=
  match hinOuter O rsqrt iters hub iters 1 0 hg0 hg0 with
  | .done hnew => .done (arkHinFinish bias hlb hub fwd hnew)
  | r => r

/-! ### Linear-solver interface adapter (`arkLsSetup` / `arkLsLinSys` /
`arkLsSolve` scaling)

Matrices are one-dimensional (`ℚ`); `SUNMatScaleAddI(-γ, A) = 1 - γ*A` and
`SUNMatScaleAdd(-γ, A, M) = M - γ*A`.  The Jacobian routine result is the
oracle value `freshJ`. -/

/-- The `convfail` context passed to the linear-solver setup. -/
inductive ConvfailFlag where
  | noFailures  -- ARK_NO_FAILURES
  | failBadJ    -- ARK_FAIL_BAD_J
  | failOther   -- ARK_FAIL_OTHER
  deriving DecidableEq, Repr

/-- The linear-solver session state consulted by the Jacobian staleness
heuristic. -/
structure LsMem where
  initsetup : Bool
  nst : ℕ
  nstlj : ℕ
  msbj : ℕ
  savedJ : ℚ
  deriving DecidableEq, Repr

/-- The `jbad` staleness decision of `arkLsSetup`: first setup since
initialization, or `nst ≥ nstlj + msbj`, or a convergence-failure context of
`ARK_FAIL_BAD_J` with an acceptable gamma change, or `ARK_FAIL_OTHER`. -/
def arkLsJbad (ls : LsMem) (convfail : ConvfailFlag)
    (dgamma_fail : Bool) : Bool :=
  ls.initsetup || decide (ls.nstlj + ls.msbj ≤ ls.nst) ||
    (decide (convfail = .failBadJ) && !dgamma_fail) ||
    decide (convfail = .failOther)

/-- Output of `arkLsLinSys`: whether `J` was recomputed (`jcur`), the system
matrix `A = M - γJ` (or `I - γJ`), and the saved Jacobian copy. -/
structure LinSysOut where
  jcur : Bool
  A : ℚ
  savedJ : ℚ
  deriving DecidableEq, Repr

/-- The linear combination finishing `arkLsLinSys`:
`A := I - γ*A` without a mass matrix, `A := M - γ*A` with one. -/
def lsFinishA (gamma : ℚ) (M : Option ℚ) (A : ℚ) : ℚ :=
  match M with
  | none => 1 - gamma * A
  | some mm => mm - gamma * A

/-- `arkLsLinSys` (successful paths): with `jok` the saved copy of `J`
overwrites the system matrix and `jcur` is cleared; otherwise the Jacobian
routine's result `freshJ` is used, `jcur` is set, and the saved copy is
refreshed; either way `A = M - γJ` (or `I - γJ`) is then formed. -/
def arkLsLinSys (savedJ : ℚ) (jok : Bool) (freshJ gamma : ℚ)
    (M : Option ℚ) : LinSysOut :=
  if jok then
    { jcur := false, A := lsFinishA gamma M savedJ, savedJ := savedJ }
  else
    { jcur := true, A := lsFinishA gamma M freshJ, savedJ := freshJ }

/-- The Jacobian-decision portion of `arkLsSetup` for a matrix-based solver:
compute `jbad` from the staleness heuristic and call the `linsys` routine
with `jok = !jbad`. -/
def arkLsSetupLinSys (ls : LsMem) (convfail : ConvfailFlag)
    (dgamma_fail : Bool) (freshJ gamma : ℚ) (M : Option ℚ) : LinSysOut :=
  arkLsLinSys ls.savedJ (!arkLsJbad ls convfail dgamma_fail) freshJ gamma M

/-- The solution-scaling configuration of the linear-solver interface:
whether the attached solver is matrix-based, and the `scalesol` flag. -/
structure LsScaleCfg where
  matrixbased : Bool
  scalesol : Bool
  deriving DecidableEq, Repr

/-- `ARKodeSetLinearSolver` enables solution scaling exactly for
matrix-based solvers. -/
def attachScaleCfg (matrixbased : Bool) : LsScaleCfg :=
  { matrixbased := matrixbased, scalesol := matrixbased }

/-- `ARKodeSetLinearSolutionScaling`: rejected (`ARKLS_ILL_INPUT`, modelled
`none`) for non-matrix-based solvers, otherwise sets `scalesol := onoff`. -/
def setLinearSolutionScaling (s : LsScaleCfg) (onoff : Bool) :
    Option LsScaleCfg :=
  if !s.matrixbased then none else some { s with scalesol := onoff }

/-- Configurations reachable through attaching a solver and any sequence of
successful `ARKodeSetLinearSolutionScaling` calls. -/
inductive LsScaleReachable : LsScaleCfg → Prop where
  | attach (mb : Bool) : LsScaleReachable (attachScaleCfg mb)
  | set {s s' : LsScaleCfg} (onoff : Bool) : LsScaleReachable s →
      setLinearSolutionScaling s onoff = some s' → LsScaleReachable s'

/-- The correction-scaling step at the end of `arkLsSolve`: when `scalesol`
is set and `gamrat ≠ 1`, the returned correction is multiplied by
`2/(1+gamrat)`. -/
def arkLsSolveScale (s : LsScaleCfg) (gamrat b : ℚ) : ℚ :=
  if s.scalesol ∧ gamrat ≠ 1 then (2 / (1 + gamrat)) * b else b

/-! ### Concrete configurations used by counterexamples and witnesses -/

/-- A fixed-step configuration with generous retry limits, far from the
minimum step size (`hmin = 0`). -/
def cfgFixed : Cfg :=
  { hmin := 0, hmax_inv := 0, etacf := 1 / 4, etamxf := 3 / 10,
    small_nef := 2, maxncf := 10, maxnef := 7, maxconstrfails := 10,
    fixedstep := true, force_pass := false, constraintsSet := false,
    constraints := [] }

/-- The same configuration with adaptive (non-fixed) stepping. -/
def cfgAdapt : Cfg :=
  { cfgFixed with fixedstep := false }

/-- An adaptive configuration whose minimum step `hmin = 9/10` exceeds
`etacf * |h|` for `|h| = 1`. -/
def cfgTightHmin : Cfg :=
  { cfgAdapt with hmin := 9 / 10 }

/-- A baseline mutable state: `h = 1`, unit solution, stale `tret = 5`. -/
def memBase : ArkMem :=
  { h := 1, eta := 1, etamax := 10, tn := 0, tcur := 0, tret := 5
    tretlast := 5, yn := [7], ycur := [7], ncfn := 0, netf := 0,
    nconstrfails := 0, nst_attempts := 0 }

/-- Adaptive configuration whose minimum step `hmin = 1` equals `|h|`. -/
def cfgHminOne : Cfg := { cfgAdapt with hmin := 1 }

/-- Adaptive configuration tolerating only a single error-test failure. -/
def cfgOneNef : Cfg := { cfgAdapt with maxnef := 1 }

/-- A stepper answer whose stages succeed, writing `[42]` into `ycur`, with
local error estimate `dsm = 2` and controller recommendation `eta = 1`. -/
def outErrTest : StepOutcome := { res := .ok 2, ycur := [42], adapt := some 1 }

/-- The restored memory after one `maxnef`-exhausting attempt from
`memBase` under `cfgOneNef`. -/
def memRestored : ArkMem :=
  { memBase with netf := 1, nst_attempts := 1, tret := 0, tretlast := 0 }

/-- Configuration with constraint handling enabled (`y ≤ 0` required),
tight failure limits (`maxncf = maxnef = 2`, `maxconstrfails = 4`) and
`etacf = 1` so retries keep `h` unchanged. -/
def cfgC2 : Cfg :=
  { hmin := 0, hmax_inv := 0, etacf := 1, etamxf := 3 / 10, small_nef := 2,
    maxncf := 2, maxnef := 2, maxconstrfails := 4, fixedstep := false,
    force_pass := false, constraintsSet := true, constraints := [-1] }

/-- State for the constraint-retry run: last good solution `yn = [10]`. -/
def memC2 : ArkMem := { memBase with yn := [10], ycur := [10] }

/-- Stepper answer whose stages succeed but leave the constraint-violating
`ycur = [1]` (the resulting retry factor is exactly 1). -/
def oConstrFail : StepOutcome := { res := .ok 1, ycur := [1], adapt := some 1 }

/-- Stepper answer reporting a recoverable nonlinear convergence failure. -/
def oConvFail : StepOutcome := { res := .convFail, ycur := [1], adapt := none }

/-- Stepper answer with feasible `ycur = [-2]` but `dsm = 2 > 1`. -/
def oBigDsm : StepOutcome := { res := .ok 2, ycur := [-2], adapt := some 1 }

/-! #### List lemmas for the weight functions -/

theorem foldl_min_le_init (ws : List ℚ) (w : ℚ) : ws.foldl min w ≤ w := by
  induction ws generalizing w with
  | nil => simp
  | cons u us ih => exact le_trans (ih (min w u)) (min_le_left _ _)

theorem foldl_min_le_mem {ws : List ℚ} {v : ℚ} (hv : v ∈ ws) (w : ℚ) :
    ws.foldl min w ≤ v := by
  induction ws generalizing w with
  | nil => cases hv
  | cons u us ih =>
    rcases List.mem_cons.mp hv with rfl | hv
    · exact le_trans (foldl_min_le_init us (min w v)) (min_le_right _ _)
    · exact ih hv (min w u)

theorem nvMin_le_of_mem {x : List ℚ} {v : ℚ} (hv : v ∈ x) : nvMin x ≤ v := by
  match x with
  | [] => cases hv
  | w :: ws =>
    show ws.foldl min w ≤ v
    rcases List.mem_cons.mp hv with rfl | hv
    · exact foldl_min_le_init ws v
    · exact foldl_min_le_mem hv w

theorem nvMin_mem {x : List ℚ} (hx : x ≠ []) : nvMin x ∈ x := by
  match x with
  | [] => exact absurd rfl hx
  | w :: ws =>
    show ws.foldl min w ∈ w :: ws
    clear hx
    induction ws generalizing w with
    | nil => simp
    | cons u us ih =>
      have := ih (min w u)
      simp only [List.foldl_cons]
      rcases List.mem_cons.mp this with h | h
      · rcases le_total w u with hle | hle
        · rw [h, min_eq_left hle]; exact List.mem_cons_self ..
        · rw [h, min_eq_right hle]; simp
      · exact List.mem_cons_of_mem _ (List.mem_cons_of_mem _ h)

theorem le_nvMin_of_forall {x : List ℚ} {c : ℚ} (hx : x ≠ [])
    (h : ∀ v ∈ x, c ≤ v) : c ≤ nvMin x :=
  h _ (nvMin_mem hx)

theorem of_mem_zipWith {f : ℚ → ℚ → ℚ} :
    ∀ {x y : List ℚ} {u : ℚ}, u ∈ List.zipWith f x y →
      ∃ a ∈ x, ∃ b ∈ y, u = f a b := by
  intro x
  induction x with
  | nil => intro y u hu; simp [List.zipWith] at hu
  | cons a as ih =>
    intro y u hu
    match y with
    | [] => simp [List.zipWith] at hu
    | b :: bs =>
      rcases List.mem_cons.mp hu with rfl | hu
      · exact ⟨a, by simp, b, by simp, rfl⟩
      · obtain ⟨a', ha', b', hb', rfl⟩ := ih hu
        exact ⟨a', List.mem_cons_of_mem _ ha', b', List.mem_cons_of_mem _ hb', rfl⟩

/-- The scalar weight computation of `arkEwtSetSS` written componentwise. -/
theorem ewtSS_vec (reltol abstol : ℚ) (y : List ℚ) :
    nvAddConst (nvScale reltol (nvAbs y)) abstol
      = y.map (fun v => reltol * |v| + abstol) := by
  simp [nvAbs, nvScale, nvAddConst, List.map_map, Function.comp_def]

/-- `arkEwtSetSS` written componentwise. -/
theorem arkEwtSetSS_eq (t : TolMem) (y : List ℚ) :
    arkEwtSetSS t y =
      if t.atolmin0 ∧ nvMin (y.map fun v => t.reltol * |v| + t.Sabstol) ≤ 0
      then none
      else some (y.map fun v => (t.reltol * |v| + t.Sabstol)⁻¹) := by
  rw [arkEwtSetSS, ewtSS_vec t.reltol t.Sabstol y]
  congr 1
  rw [nvInv, List.map_map]
  rfl

/--
C3: for every state vector `y`, `arkEwtSetSS` (after `ARKodeSStolerances`,
which guarantees `reltol ≥ 0`, `abstol ≥ 0` and `atolmin0 = (abstol == 0)`)
fails exactly when `abstol == 0` and some component has `reltol*|y[i]| ≤ 0`;
on success it sets `weight[i] = 1/(reltol*|y[i]| + abstol)`; whenever
`abstol > 0` it succeeds with strictly positive weights, and `arkEwtSetSV`
succeeds with strictly positive weights whenever every component of the
absolute-tolerance vector is positive.
-/
theorem c3_ewt_exact_failure_and_positivity (reltol abstol : ℚ) (y : List ℚ)
    (hrt : 0 ≤ reltol) (hy : y ≠ []) :
    (arkEwtSetSS (mkSSTol reltol abstol) y = none ↔
      abstol = 0 ∧ ∃ v ∈ y, reltol * |v| ≤ 0)
    ∧ (∀ w, arkEwtSetSS (mkSSTol reltol abstol) y = some w →
        w = y.map (fun v => (reltol * |v| + abstol)⁻¹))
    ∧ (0 < abstol →
        ∃ w, arkEwtSetSS (mkSSTol reltol abstol) y = some w ∧ ∀ u ∈ w, 0 < u)
    ∧ (∀ va : List ℚ, va ≠ [] → (∀ a ∈ va, 0 < a) →
        ∃ w, arkEwtSetSV (mkSVTol reltol va) y = some w ∧ ∀ u ∈ w, 0 < u) := by
  have hSS := arkEwtSetSS_eq (mkSSTol reltol abstol) y
  simp only [mkSSTol] at hSS ⊢
  have ht1ne : y.map (fun v => reltol * |v| + abstol) ≠ [] := by
    simpa using hy
  refine ⟨?_, ?_, ?_, ?_⟩
  · rw [hSS]
    constructor
    · intro hnone
      split at hnone
      · rename_i hcond
        obtain ⟨hz, hmin⟩ := hcond
        have habs0 : abstol = 0 := by simpa using hz
        subst habs0
        obtain ⟨u, hu, hmem⟩ :
            ∃ u ∈ y, nvMin (y.map fun v => reltol * |v| + 0)
              = reltol * |u| + 0 := by
          have := nvMin_mem ht1ne
          obtain ⟨u, hu, he⟩ := List.mem_map.mp this
          exact ⟨u, hu, he.symm⟩
        refine ⟨rfl, u, hu, ?_⟩
        have := hmem ▸ hmin
        linarith
      · exact absurd hnone (by simp)
    · rintro ⟨rfl, v, hv, hle⟩
      have hmle : nvMin (y.map fun v => reltol * |v| + 0) ≤ 0 := by
        have hmem : reltol * |v| + 0 ∈ y.map fun v => reltol * |v| + 0 :=
          List.mem_map.mpr ⟨v, hv, rfl⟩
        have := nvMin_le_of_mem hmem
        linarith
      have hmle' : nvMin (y.map fun v => reltol * |v|) ≤ 0 := by
        simpa using hmle
      simp [hmle, hmle']
  · intro w hw
    rw [hSS] at hw
    split at hw
    · exact absurd hw (by simp)
    · exact (Option.some.inj hw).symm
  · intro hpos
    have hz : ¬(abstol = 0) := ne_of_gt hpos
    refine ⟨y.map fun v => (reltol * |v| + abstol)⁻¹, ?_, ?_⟩
    · rw [hSS]
      simp [hz]
    · intro u hu
      obtain ⟨v, _, rfl⟩ := List.mem_map.mp hu
      have : 0 < reltol * |v| + abstol := by
        have := mul_nonneg hrt (abs_nonneg v)
        linarith
      exact inv_pos.mpr this
  · intro va hva hvapos
    have hz : ¬(nvMin va = 0) := ne_of_gt (hvapos _ (nvMin_mem hva))
    refine ⟨nvInv (nvLinearSum reltol (nvAbs y) 1 va), ?_, ?_⟩
    · rw [arkEwtSetSV]
      simp [mkSVTol, hz]
    · intro u hu
      simp only [nvInv] at hu
      obtain ⟨t, ht, rfl⟩ := List.mem_map.mp hu
      simp only [nvLinearSum] at ht
      obtain ⟨a, ha, b, hb, rfl⟩ := of_mem_zipWith ht
      simp only [nvAbs] at ha
      obtain ⟨v, _, rfl⟩ := List.mem_map.mp ha
      have hb' : 0 < b := hvapos _ hb
      have : 0 < reltol * |v| + 1 * b := by
        have := mul_nonneg hrt (abs_nonneg v)
        linarith
      exact inv_pos.mpr this

/-- Witness for C3 at `reltol = 1`, `abstol = 1`, `y = [2]`, `va = [3]`. -/
theorem c3_ewt_exact_failure_and_positivity_witness :
    (arkEwtSetSS (mkSSTol 1 1) [2] = none ↔
      (1 : ℚ) = 0 ∧ ∃ v ∈ [(2 : ℚ)], 1 * |v| ≤ 0)
    ∧ (∀ w, arkEwtSetSS (mkSSTol 1 1) [2] = some w →
        w = [(2 : ℚ)].map (fun v => (1 * |v| + 1)⁻¹))
    ∧ ((0 : ℚ) < 1 →
        ∃ w, arkEwtSetSS (mkSSTol 1 1) [2] = some w ∧ ∀ u ∈ w, 0 < u)
    ∧ (∀ va : List ℚ, va ≠ [] → (∀ a ∈ va, 0 < a) →
        ∃ w, arkEwtSetSV (mkSVTol 1 va) [2] = some w ∧ ∀ u ∈ w, 0 < u) :=
  c3_ewt_exact_failure_and_positivity 1 1 [2] (by norm_num) (by simp)

/-! ### Case characterizations of the three per-attempt checks -/

/-- The stepper-reported `nflag` values (comment in `arkCheckConvergence`:
"At this point, nflag = CONV_FAIL or RHSFUNC_RECVR"): never a
driver-written predictor hint. -/
def NFlag.fromStepper (nf : NFlag) : Prop :=
  nf = .success ∨ nf = .retryStep ∨ nf = .convFail ∨ nf = .rhsfuncRecvr ∨
    nf.isNeg = true

theorem stepRes_nflag_fromStepper (res : StepRes) : res.nflag.fromStepper := by
  cases res <;> simp [StepRes.nflag, NFlag.fromStepper, NFlag.isNeg]

theorem conv_rc_cases (c : Cfg) (m : ArkMem) (nf : NFlag) (ncf : ℕ)
    (hnf : nf.fromStepper) :
    ((arkCheckConvergence c m nf ncf).rc = .success
        ∧ (arkCheckConvergence c m nf ncf).cnt = ncf)
    ∨ ((arkCheckConvergence c m nf ncf).rc = .retryStep
        ∧ (arkCheckConvergence c m nf ncf).cnt = ncf)
    ∨ ((arkCheckConvergence c m nf ncf).rc = .predictAgain
        ∧ (arkCheckConvergence c m nf ncf).cnt = ncf + 1
        ∧ ncf + 1 ≠ c.maxncf)
    ∨ ((arkCheckConvergence c m nf ncf).rc.isNeg = true
        ∧ ((arkCheckConvergence c m nf ncf).cnt = ncf
          ∨ (arkCheckConvergence c m nf ncf).cnt = ncf + 1)) := by
  rcases hnf with rfl | rfl | rfl | rfl | hneg
  · left
    simp [arkCheckConvergence]
  · right; left
    simp [arkCheckConvergence]
  · by_cases hfs : c.fixedstep
    · right; right; right
      simp [arkCheckConvergence, hfs, RC.isNeg]
    · by_cases hf : ncf + 1 = c.maxncf ∨ |m.h| ≤ c.hmin * onepsm
      · right; right; right
        simp [arkCheckConvergence, hfs, hf, NFlag.isNeg, RC.isNeg]
      · right; right; left
        simp only [arkCheckConvergence, hfs, hf, NFlag.isNeg, RC.isNeg]
        simp
        tauto
  · by_cases hfs : c.fixedstep
    · right; right; right
      simp [arkCheckConvergence, hfs, RC.isNeg]
    · by_cases hf : ncf + 1 = c.maxncf ∨ |m.h| ≤ c.hmin * onepsm
      · right; right; right
        simp [arkCheckConvergence, hfs, hf, NFlag.isNeg, RC.isNeg]
      · right; right; left
        simp only [arkCheckConvergence, hfs, hf, NFlag.isNeg, RC.isNeg]
        simp
        tauto
  · right; right; right
    cases nf <;> simp_all [arkCheckConvergence, NFlag.isNeg, RC.isNeg] <;>
      split_ifs <;> simp [RC.isNeg]

theorem constr_rc_cases (c : Cfg) (m : ArkMem) (nf : NFlag) (cf : ℕ) :
    ((arkCheckConstraints c m nf cf).rc = .success
        ∧ (arkCheckConstraints c m nf cf).cnt = cf)
    ∨ ((arkCheckConstraints c m nf cf).rc = .constrRecvr
        ∧ (arkCheckConstraints c m nf cf).cnt = cf + 1
        ∧ cf + 1 ≠ c.maxconstrfails)
    ∨ ((arkCheckConstraints c m nf cf).rc.isNeg = true
        ∧ (arkCheckConstraints c m nf cf).cnt = cf + 1) := by
  rw [arkCheckConstraints]
  by_cases h1 : (nvConstrMask c.constraints m.ycur).1 = true
  · left
    simp [h1]
  · by_cases h2 : cf + 1 = c.maxconstrfails
    · right; right
      simp [h1, h2, RC.isNeg]
    · by_cases h3 : c.fixedstep
      · right; right
        simp [h1, h2, h3, RC.isNeg]
      · by_cases h4 : |m.h| ≤ c.hmin * onepsm
        · right; right
          simp [h1, h2, h3, h4, RC.isNeg]
        · right; left
          simp [h1, h2, h3, h4, RC.isNeg]

theorem temporal_rc_cases (c : Cfg) (m : ArkMem) (nf : NFlag) (nef : ℕ)
    (dsm : ℚ) (adapt : Option ℚ) :
    ((arkCheckTemporalError c m nf nef dsm adapt).rc = .success
        ∧ (arkCheckTemporalError c m nf nef dsm adapt).cnt = nef)
    ∨ ((arkCheckTemporalError c m nf nef dsm adapt).rc = .tryAgain
        ∧ (arkCheckTemporalError c m nf nef dsm adapt).cnt = nef + 1
        ∧ nef + 1 ≠ c.maxnef)
    ∨ ((arkCheckTemporalError c m nf nef dsm adapt).rc.isNeg = true
        ∧ ((arkCheckTemporalError c m nf nef dsm adapt).cnt = nef
          ∨ (arkCheckTemporalError c m nf nef dsm adapt).cnt = nef + 1)) := by
  cases adapt with
  | none =>
    right; right
    simp [arkCheckTemporalError, RC.isNeg]
  | some e =>
    by_cases h1 : dsm ≤ 1
    · left
      simp [arkCheckTemporalError, h1]
    · by_cases h2 : nef + 1 = c.maxnef
      · right; right
        simp [arkCheckTemporalError, h1, h2, RC.isNeg]
      · right; left
        simp [arkCheckTemporalError, h1, h2, RC.isNeg]

theorem countStep_m_h (v : LoopVars) : (countStep v).m.h = v.m.h := by
  rw [countStep]; split <;> rfl

theorem countStep_kflag (v : LoopVars) : (countStep v).kflag = v.kflag := by
  rw [countStep]; split <;> rfl

theorem countStep_ncf (v : LoopVars) : (countStep v).ncf = v.ncf := by
  rw [countStep]; split <;> rfl

theorem countStep_nef (v : LoopVars) : (countStep v).nef = v.nef := by
  rw [countStep]; split <;> rfl

theorem countStep_constrfails (v : LoopVars) :
    (countStep v).constrfails = v.constrfails := by
  rw [countStep]; split <;> rfl

theorem countStep_m_ncfn (v : LoopVars) : (countStep v).m.ncfn = v.m.ncfn := by
  rw [countStep]; split <;> rfl

theorem countStep_of_retry (v : LoopVars) (h : v.kflag = .retryStep) :
    countStep v = v := by
  rw [countStep, if_pos h]

theorem countStep_attempts_le (v : LoopVars) :
    (countStep v).attempts ≤ v.attempts + 1 := by
  rw [countStep]; split <;> simp

/-- `arkCheckConvergence` passes a successful stepper report through. -/
theorem conv_success (c : Cfg) (m : ArkMem) (ncf : ℕ) :
    arkCheckConvergence c m .success ncf = ⟨.success, m, .success, ncf⟩ := by
  simp [arkCheckConvergence]

/-- `arkCheckConvergence` passes an `ARK_RETRY_STEP` report through. -/
theorem conv_retry (c : Cfg) (m : ArkMem) (ncf : ℕ) :
    arkCheckConvergence c m .retryStep ncf
      = ⟨.retryStep, m, .retryStep, ncf⟩ := by
  simp [arkCheckConvergence]

/-! ### C5: convergence-failure handling -/

/--
C5 (counterexample): in fixed-step mode, a recoverable nonlinear convergence
failure makes `arkCheckConvergence` return the fatal `ARK_CONV_FAILURE`
immediately — with the per-step failure count still below `maxncf` and
`|h|` far above `hmin*(1+ε)` — rather than the `PREDICT_AGAIN` retry that
the claim requires in that situation.
-/
theorem c5_conv_counterexample :
    (arkCheckConvergence cfgFixed memBase .convFail 0).rc = .convFailure
    ∧ (arkCheckConvergence cfgFixed memBase .convFail 0).cnt ≠ cfgFixed.maxncf
    ∧ cfgFixed.hmin * onepsm < |memBase.h|
    ∧ (arkCheckConvergence cfgFixed memBase .convFail 0).rc
        ≠ .predictAgain := by
  refine ⟨rfl, by decide, ?_, by decide⟩
  show (0 : ℚ) * onepsm < |(1 : ℚ)|
  norm_num

/--
C5 (amended): for every recoverable nonlinear-solver failure reported by the
stepper, when step-size adaptivity is active (`fixedstep` off),
`arkCheckConvergence` either returns `PREDICT_AGAIN` after setting
`eta = etacf`, or, once the per-step convergence-failure count reaches
`maxncf` or `|h| ≤ hmin*(1+ε)`, returns `ARK_CONV_FAILURE` (nonlinear
convergence failure) or `ARK_REPTD_RHSFUNC_ERR` (recoverable right-hand-side
failure); in fixed-step mode any recoverable failure instead returns
`ARK_CONV_FAILURE` at once, without incrementing the per-step count.
-/
theorem c5_conv_failure_policy (c : Cfg) (m : ArkMem) (nflag : NFlag)
    (ncf : ℕ) (hrec : nflag = .convFail ∨ nflag = .rhsfuncRecvr) :
    (c.fixedstep = false →
      if ncf + 1 = c.maxncf ∨ |m.h| ≤ c.hmin * onepsm then
        arkCheckConvergence c m nflag ncf =
          ⟨if nflag = .convFail then .convFailure else .reptdRhsfuncErr,
            { m with ncfn := m.ncfn + 1, etamax := 1 }, nflag, ncf + 1⟩
      else
        arkCheckConvergence c m nflag ncf =
          ⟨.predictAgain,
            { m with ncfn := m.ncfn + 1, etamax := 1, eta := c.etacf },
            .prevConvFail, ncf + 1⟩)
    ∧ (c.fixedstep = true →
        arkCheckConvergence c m nflag ncf =
          ⟨.convFailure, { m with ncfn := m.ncfn + 1 }, nflag, ncf⟩) := by
  rcases hrec with rfl | rfl <;>
    constructor <;> intro hfs <;>
    simp only [arkCheckConvergence, NFlag.isNeg, hfs] <;>
    split_ifs with h1 h2 <;>
    simp_all

/-- Witness for C5 at a concrete adaptive configuration in the retry case. -/
theorem c5_conv_failure_policy_witness :
    (cfgAdapt.fixedstep = false →
      if 0 + 1 = cfgAdapt.maxncf ∨ |memBase.h| ≤ cfgAdapt.hmin * onepsm then
        arkCheckConvergence cfgAdapt memBase .convFail 0 =
          ⟨if NFlag.convFail = .convFail then .convFailure
            else .reptdRhsfuncErr,
            { memBase with ncfn := memBase.ncfn + 1, etamax := 1 },
            .convFail, 0 + 1⟩
      else
        arkCheckConvergence cfgAdapt memBase .convFail 0 =
          ⟨.predictAgain,
            { memBase with
              ncfn := memBase.ncfn + 1, etamax := 1
              eta := cfgAdapt.etacf }, .prevConvFail, 0 + 1⟩)
    ∧ (cfgAdapt.fixedstep = true →
        arkCheckConvergence cfgAdapt memBase .convFail 0 =
          ⟨.convFailure, { memBase with ncfn := memBase.ncfn + 1 },
            .convFail, 0⟩) :=
  c5_conv_failure_policy cfgAdapt memBase .convFail 0 (Or.inl rfl)

/-! ### C7: constraint handling -/

/--
C7: when some component of `ycur` violates its inequality constraint,
`arkCheckConstraints` computes the violator mask, and either returns the
fatal `ARK_CONSTR_FAIL` (when the per-step failure count reaches
`maxconstrfails`, or in fixed-step mode, or when `|h| ≤ hmin*(1+ε)`) or sets
`eta = max(0.9 * minQuotient(yn, mask*(yn - ycur)), 0.1)` and signals a
retry (`CONSTR_RECVR`); when all constraints hold it succeeds untouched.
-/
theorem c7_constraint_check (c : Cfg) (m : ArkMem) (nflag : NFlag) (cf : ℕ) :
    ((nvConstrMask c.constraints m.ycur).1 = true →
      arkCheckConstraints c m nflag cf = ⟨.success, m, nflag, cf⟩)
    ∧ ((nvConstrMask c.constraints m.ycur).1 = false →
        ((cf + 1 = c.maxconstrfails ∨ c.fixedstep = true ∨
            |m.h| ≤ c.hmin * onepsm) →
          arkCheckConstraints c m nflag cf =
            ⟨.constrFail, { m with nconstrfails := m.nconstrfails + 1 },
              nflag, cf + 1⟩)
        ∧ (cf + 1 ≠ c.maxconstrfails → c.fixedstep = false →
            c.hmin * onepsm < |m.h| →
            arkCheckConstraints c m nflag cf =
              ⟨.constrRecvr,
                { m with
                  nconstrfails := m.nconstrfails + 1
                  eta := max ((9 / 10) * nvMinQuotient m.yn
                    (nvProd (nvConstrMask c.constraints m.ycur).2
                      (nvLinearSum 1 m.yn (-1) m.ycur))) (1 / 10) },
                .prevConvFail, cf + 1⟩)) := by
  constructor
  · intro hpass
    simp [arkCheckConstraints, hpass]
  · intro hfail
    constructor
    · intro hfatal
      simp only [arkCheckConstraints, hfail, Bool.false_eq_true, if_false]
      rcases hfatal with h1 | h2 | h3 <;> split_ifs <;> simp_all
    · intro h1 h2 h3
      have h3' : ¬(|m.h| ≤ c.hmin * onepsm) := not_le.mpr h3
      simp only [arkCheckConstraints, hfail, Bool.false_eq_true, if_false]
      split_ifs <;> simp_all

/-- Witness for C7 at the constraint `y ≤ 0` violated by `ycur = [1]`
against `yn = [10]`: the mask is `[1]`, the shrink factor evaluates to
`max(0.9 * (10/9), 0.1) = 1`, and the check signals a retry. -/
theorem c7_constraint_check_witness :
    (nvConstrMask cfgC2.constraints ([1] : List ℚ)).1 = false
    ∧ arkCheckConstraints cfgC2 { memC2 with ycur := [1] } NFlag.success 0 =
      ⟨.constrRecvr,
        { memC2 with
          ycur := [1]
          nconstrfails := memC2.nconstrfails + 1
          eta := 1 },
        .prevConvFail, 1⟩ := by
  have hmask : (nvConstrMask cfgC2.constraints ([1] : List ℚ)).1 = false := by
    norm_num [nvConstrMask, constrOK, cfgC2]
  refine ⟨hmask, ?_⟩
  have hres := ((c7_constraint_check cfgC2 { memC2 with ycur := [1] }
        NFlag.success 0).2 hmask).2
      (by norm_num [cfgC2]) rfl
      (by norm_num [cfgC2, onepsm, memC2, memBase])
  rw [hres]
  have heta : max ((9 / 10) * nvMinQuotient
        ({ memC2 with ycur := [1] } : ArkMem).yn
        (nvProd (nvConstrMask cfgC2.constraints
            ({ memC2 with ycur := [1] } : ArkMem).ycur).2
          (nvLinearSum 1 ({ memC2 with ycur := [1] } : ArkMem).yn (-1)
            ({ memC2 with ycur := [1] } : ArkMem).ycur))) (1 / 10)
      = (1 : ℚ) := by
    norm_num [nvMinQuotient, nvProd, nvLinearSum, nvConstrMask, constrOK,
      cfgC2, memC2, memBase, bigReal]
  rw [heta]

/-! ### C6: Jacobian staleness decision -/

/--
C6: in the linear-solver setup, the saved Jacobian is declared stale
(`jbad`, hence recomputed by `arkLsLinSys` with `jcur` set and the saved
copy refreshed) exactly when this is the first setup since initialization,
or the steps since the last Jacobian update reach `msbj`, or the
convergence-failure context is `ARK_FAIL_BAD_J` with an acceptable gamma
change or `ARK_FAIL_OTHER`; otherwise the saved copy is reused
(`jcur` cleared, saved copy untouched).  Either way `A = M - γJ`
(`I - γJ` without a mass matrix).
-/
theorem c6_jacobian_staleness (ls : LsMem) (convfail : ConvfailFlag)
    (dgamma_fail : Bool) (freshJ gamma : ℚ) (M : Option ℚ) :
    (arkLsJbad ls convfail dgamma_fail = true ↔
      ls.initsetup = true ∨ ls.nstlj + ls.msbj ≤ ls.nst ∨
        (convfail = .failBadJ ∧ dgamma_fail = false) ∨ convfail = .failOther)
    ∧ (arkLsSetupLinSys ls convfail dgamma_fail freshJ gamma M).jcur
        = arkLsJbad ls convfail dgamma_fail
    ∧ (arkLsJbad ls convfail dgamma_fail = false →
        arkLsSetupLinSys ls convfail dgamma_fail freshJ gamma M =
          { jcur := false, A := lsFinishA gamma M ls.savedJ
            savedJ := ls.savedJ })
    ∧ (arkLsJbad ls convfail dgamma_fail = true →
        arkLsSetupLinSys ls convfail dgamma_fail freshJ gamma M =
          { jcur := true, A := lsFinishA gamma M freshJ
            savedJ := freshJ }) := by
  refine ⟨?_, ?_, ?_, ?_⟩
  · simp only [arkLsJbad, Bool.or_eq_true, Bool.and_eq_true,
      decide_eq_true_eq, Bool.not_eq_true']
    tauto
  · cases h : arkLsJbad ls convfail dgamma_fail <;>
      simp [arkLsSetupLinSys, arkLsLinSys, h]
  · intro h
    simp [arkLsSetupLinSys, arkLsLinSys, h]
  · intro h
    simp [arkLsSetupLinSys, arkLsLinSys, h]

/-- Witness for C6 at a fresh session (`initsetup` set) with `msbj = 51`. -/
theorem c6_jacobian_staleness_witness :
    (arkLsJbad ⟨true, 0, 0, 51, 5⟩ .noFailures false = true ↔
      (⟨true, 0, 0, 51, 5⟩ : LsMem).initsetup = true ∨
        (0 : ℕ) + 51 ≤ 0 ∨
        (ConvfailFlag.noFailures = .failBadJ ∧ false = false) ∨
        ConvfailFlag.noFailures = .failOther)
    ∧ (arkLsSetupLinSys ⟨true, 0, 0, 51, 5⟩ .noFailures false 9 2 none).jcur
        = arkLsJbad ⟨true, 0, 0, 51, 5⟩ .noFailures false
    ∧ (arkLsJbad ⟨true, 0, 0, 51, 5⟩ .noFailures false = false →
        arkLsSetupLinSys ⟨true, 0, 0, 51, 5⟩ .noFailures false 9 2 none =
          { jcur := false, A := lsFinishA 2 none 5, savedJ := 5 })
    ∧ (arkLsJbad ⟨true, 0, 0, 51, 5⟩ .noFailures false = true →
        arkLsSetupLinSys ⟨true, 0, 0, 51, 5⟩ .noFailures false 9 2 none =
          { jcur := true, A := lsFinishA 2 none 9, savedJ := 9 }) :=
  c6_jacobian_staleness ⟨true, 0, 0, 51, 5⟩ .noFailures false 9 2 none

/-! ### C9: correction scaling in `arkLsSolve` -/

/--
C9 (counterexample): `ARKodeSetLinearSolutionScaling(false)` on a
matrix-based solver is accepted and reaches a configuration where, with
`gamrat = 2 ≠ 1`, `arkLsSolve` leaves the correction unscaled even though
the claim requires the factor `2/(1+gamrat)` for every matrix-based solver.
-/
theorem c9_scaling_counterexample :
    setLinearSolutionScaling (attachScaleCfg true) false
        = some { matrixbased := true, scalesol := false }
    ∧ LsScaleReachable { matrixbased := true, scalesol := false }
    ∧ arkLsSolveScale { matrixbased := true, scalesol := false } 2 1 = 1
    ∧ ((2 : ℚ) / (1 + 2)) * 1 ≠ 1 := by
  refine ⟨rfl, ?_, by simp [arkLsSolveScale], by norm_num⟩
  exact LsScaleReachable.set false (LsScaleReachable.attach true) rfl

/--
C9 (amended): `arkLsSolve` scales the correction by `2/(1+gamrat)` exactly
when the `scalesol` flag is set and `gamrat ≠ 1`; `scalesol` defaults to
set for matrix-based solvers at attach time and can be changed — only for
matrix-based solvers — by `ARKodeSetLinearSolutionScaling`, so in every
reachable configuration matrix-free and matrix-embedded solvers never scale
the correction, and with the default setting matrix-based solvers scale it
exactly when `gamrat ≠ 1`.
-/
theorem c9_solution_scaling (s : LsScaleCfg) (hs : LsScaleReachable s)
    (gamrat b : ℚ) :
    (s.scalesol = true → s.matrixbased = true)
    ∧ (s.matrixbased = false → arkLsSolveScale s gamrat b = b)
    ∧ (s.scalesol = true → gamrat ≠ 1 →
        arkLsSolveScale s gamrat b = (2 / (1 + gamrat)) * b)
    ∧ (∀ mb : Bool, arkLsSolveScale (attachScaleCfg mb) gamrat b =
        if mb = true ∧ gamrat ≠ 1 then (2 / (1 + gamrat)) * b else b) := by
  have hinv : s.scalesol = true → s.matrixbased = true := by
    induction hs with
    | attach mb =>
      intro h
      simpa [attachScaleCfg] using h
    | set onoff hr hset ih =>
      rename_i s0 s1
      intro _
      simp only [setLinearSolutionScaling] at hset
      split at hset
      · exact absurd hset (by simp)
      · rename_i hmb
        have hs1 : { s0 with scalesol := onoff } = s1 := Option.some.inj hset
        rw [← hs1]
        simpa using hmb
  refine ⟨hinv, ?_, ?_, ?_⟩
  · intro hmb
    have hsc : s.scalesol = false := by
      cases h : s.scalesol
      · rfl
      · exact absurd (hinv h) (by simp [hmb])
    simp [arkLsSolveScale, hsc]
  · intro h1 h2
    simp [arkLsSolveScale, h1, h2]
  · intro mb
    cases mb <;> by_cases hg : gamrat = 1 <;>
      simp [arkLsSolveScale, attachScaleCfg, hg]

/-- Witness for C9 (amended) at a matrix-free attach with `gamrat = 3`. -/
theorem c9_solution_scaling_witness :
    ((attachScaleCfg false).scalesol = true →
      (attachScaleCfg false).matrixbased = true)
    ∧ ((attachScaleCfg false).matrixbased = false →
        arkLsSolveScale (attachScaleCfg false) 3 2 = 2)
    ∧ ((attachScaleCfg false).scalesol = true → (3 : ℚ) ≠ 1 →
        arkLsSolveScale (attachScaleCfg false) 3 2 = (2 / (1 + 3)) * 2)
    ∧ (∀ mb : Bool, arkLsSolveScale (attachScaleCfg mb) 3 2 =
        if mb = true ∧ (3 : ℚ) ≠ 1 then (2 / (1 + 3)) * 2 else 2) :=
  c9_solution_scaling (attachScaleCfg false) (LsScaleReachable.attach false) 3 2

/-! ### C8: `arkHin` behaviour under repeated recoverable RHS failures -/

/-- If every `arkYddNorm` call of an inner pass fails recoverably, that pass
exhausts its `H0_ITERS` attempts. -/
theorem hinInner_all_recvr (O : ℕ → YddRes) :
    ∀ (n : ℕ) (hg : ℚ) (cidx : ℕ), (∀ j, j < n → O (cidx + j) = .recvr) →
      ∃ hg' c', hinInner O n hg cidx = .exhausted hg' c' := by
  intro n
  induction n with
  | zero => exact fun hg cidx _ => ⟨hg, cidx, rfl⟩
  | succ n ih =>
    intro hg cidx hO
    have h0 : O cidx = .recvr := by simpa using hO 0 (Nat.succ_pos n)
    have hrest : ∀ j, j < n → O (cidx + 1 + j) = .recvr := by
      intro j hj
      have := hO (j + 1) (by omega)
      simpa [Nat.add_assoc, Nat.add_comm 1 j] using this
    obtain ⟨hg', c', hrec⟩ := ih (hg * (1 / 5)) (cidx + 1) hrest
    exact ⟨hg', c', by rw [hinInner, h0, hrec]⟩

/--
C8: if the right-hand side fails recoverably on every one of the bounded
inner attempts of `arkHin` (each shrinking the trial step by the fixed
factor `0.2`), then: exhaustion on the first outer pass makes `arkHin`
return `ARK_REPTD_RHSFUNC_ERR` (and likewise whenever the exhausted pass
number is `≤ 2`), while exhaustion on a pass `≥ 3` makes the outer loop
fall back to `hs`, the most recent trial step that previously passed
through `f`, and succeed.
-/
theorem c8_hin_recoverable_exhaustion (O : ℕ → YddRes) (rsqrt : ℚ → ℚ)
    (iters : ℕ) (bias hlb hub hg0 : ℚ) (fwd : Bool) :
    ((∀ j, j < iters → O j = .recvr) → 1 ≤ iters →
      arkHinSearch O rsqrt iters bias hlb hub fwd hg0 = .reptdRhsErr)
    ∧ (∀ fuel count1 cidx hg hs,
        (∀ j, j < iters → O (cidx + j) = .recvr) → count1 ≤ 2 →
        hinOuter O rsqrt iters hub (fuel + 1) count1 cidx hg hs
          = .reptdRhsErr)
    ∧ (∀ fuel count1 cidx hg hs,
        (∀ j, j < iters → O (cidx + j) = .recvr) → 3 ≤ count1 →
        hinOuter O rsqrt iters hub (fuel + 1) count1 cidx hg hs
          = .done hs) := by
  have hpass2 : ∀ fuel count1 cidx hg hs,
      (∀ j, j < iters → O (cidx + j) = .recvr) → count1 ≤ 2 →
      hinOuter O rsqrt iters hub (fuel + 1) count1 cidx hg hs
        = .reptdRhsErr := by
    intro fuel count1 cidx hg hs hO hc
    obtain ⟨hg', c', hex⟩ := hinInner_all_recvr O iters hg cidx hO
    rw [hinOuter, hex]
    simp [hc]
  refine ⟨?_, hpass2, ?_⟩
  · intro hO hiters
    obtain ⟨f, rfl⟩ := Nat.exists_eq_add_of_le hiters
    have := hpass2 f 1 0 hg0 hg0 (by simpa using hO) (by omega)
    rw [arkHinSearch]
    rw [show 1 + f = f + 1 by omega] at this ⊢
    rw [this]
  · intro fuel count1 cidx hg hs hO hc
    obtain ⟨hg', c', hex⟩ := hinInner_all_recvr O iters hg cidx hO
    rw [hinOuter, hex]
    have : ¬(count1 ≤ 2) := by omega
    simp [this]

/-- Witness for C8: the always-recoverable oracle with four inner attempts,
exercised at outer passes 1 and 3. -/
theorem c8_hin_recoverable_exhaustion_witness :
    (((∀ j, j < 4 → (fun _ => YddRes.recvr) j = YddRes.recvr) → 1 ≤ 4 →
      arkHinSearch (fun _ => .recvr) id 4 (1 / 2) 0 1 true 1
        = .reptdRhsErr))
    ∧ (∀ fuel count1 cidx hg hs,
        (∀ j, j < 4 → (fun _ => YddRes.recvr) (cidx + j) = YddRes.recvr) →
        count1 ≤ 2 →
        hinOuter (fun _ => .recvr) id 4 1 (fuel + 1) count1 cidx hg hs
          = .reptdRhsErr)
    ∧ (∀ fuel count1 cidx hg hs,
        (∀ j, j < 4 → (fun _ => YddRes.recvr) (cidx + j) = YddRes.recvr) →
        3 ≤ count1 →
        hinOuter (fun _ => .recvr) id 4 1 (fuel + 1) count1 cidx hg hs
          = .done hs) :=
  c8_hin_recoverable_exhaustion (fun _ => .recvr) id 4 (1 / 2) 0 1 1 true

/-! ### C1: output restoration on step-attempt-loop failure -/

/--
C1 (counterexample): an error-test failure with `|h| ≤ hmin*(1+ε)` takes the
direct `return (ARK_ERR_FAILURE)` inside the attempt loop, which leaves the
output vector holding the failed attempt's `ycur` (here `[42] ≠ yn = [7]`)
and leaves `*tret` stale (`5 ≠ tcur = 0`), so this failure return is not
restored to the last known-good state as the claim requires.
-/
theorem c1_unrestored_counterexample :
    (attemptPhase cfgHminOne [outErrTest]
        (initLoopVars memBase)).unrestoredFailure = true := by
  have hcount : countStep (initLoopVars memBase) =
      ⟨⟨1, 1, 10, 0, 0, 5, 5, [7], [7], 0, 0, 0, 1⟩,
        .success, .firstCall, 0, 1, 0, 0, 0⟩ := by
    simp [countStep, initLoopVars, memBase]
  have hconv := conv_success cfgHminOne
    ⟨1, 1, 10, 0, 0, 5, 5, [7], [42], 0, 0, 0, 1⟩ 0
  have htemp : arkCheckTemporalError cfgHminOne
      ⟨1, 1, 10, 0, 0, 5, 5, [7], [42], 0, 0, 0, 1⟩ .success 0 2 (some 1) =
      ⟨.tryAgain, ⟨1, 1, 1, 0, 0, 5, 5, [7], [42], 0, 1, 0, 1⟩,
        .prevErrFail, 1⟩ := by
    norm_num [arkCheckTemporalError, applyEtaBounds, cfgHminOne, cfgAdapt,
      cfgFixed]
  have hres : outErrTest.res = .ok 2 := rfl
  have hyc : outErrTest.ycur = [42] := rfl
  have had : outErrTest.adapt = some 1 := rfl
  have hfs : cfgHminOne.fixedstep = false := rfl
  have hcs : cfgHminOne.constraintsSet = false := rfl
  have hfp : cfgHminOne.force_pass = false := rfl
  have fh : (1 : ℚ) ≤ cfgHminOne.hmin * onepsm := by
    norm_num [cfgHminOne, cfgAdapt, cfgFixed, onepsm]
  have hiter : loopIter cfgHminOne (initLoopVars memBase) outErrTest =
      .errReturn ⟨⟨1, 1, 1, 0, 0, 5, 5, [7], [42], 0, 1, 0, 1⟩,
        .tryAgain, .prevErrFail, 2, 1, 0, 1, 0⟩ := by
    simp [loopIter, hcount, hres, hyc, had, hconv, htemp, StepRes.nflag,
      RC.isNeg, hfs, hcs, hfp, fh]
  have hphase : attemptPhase cfgHminOne [outErrTest] (initLoopVars memBase) =
      .failedDirect ⟨1, 1, 1, 0, 0, 5, 5, [7], [42], 0, 1, 0, 1⟩ := by
    simp [attemptPhase, runLoop, hiter]
  rw [hphase]
  norm_num [PhaseResult.unrestoredFailure]

/--
C1 (amended): on every failure of the step-attempt loop that reaches the
post-loop failure handling of `ARKodeEvolve`, the output vector is restored
to the last known-good solution `yn` and `*tret` is set to `tcur` before
the failure code is returned; the one exception is the driver-level
minimum-step-size check, whose direct `ARK_ERR_FAILURE` return from inside
the loop leaves `yout` and `*tret` untouched.
-/
theorem c1_failure_restores_output (c : Cfg) (os : List StepOutcome)
    (v : LoopVars) (rc : RC) (m : ArkMem)
    (h : attemptPhase c os v = .failedRestored rc m) :
    m.ycur = m.yn ∧ m.tret = m.tcur := by
  rw [attemptPhase] at h
  split at h
  · exact absurd h (by simp)
  · exact absurd h (by simp)
  · split at h
    · exact absurd h (by simp)
    · cases h
      exact ⟨rfl, rfl⟩

/-- Witness for C1 (amended): a run whose single attempt exhausts `maxnef`,
breaking the loop fatally and going through the restoring failure path. -/
theorem c1_failure_restores_output_witness :
    memRestored.ycur = memRestored.yn
    ∧ memRestored.tret = memRestored.tcur :=
  c1_failure_restores_output cfgOneNef [outErrTest] (initLoopVars memBase)
    .errFailure memRestored (by
      have hcount : countStep (initLoopVars memBase) =
          ⟨⟨1, 1, 10, 0, 0, 5, 5, [7], [7], 0, 0, 0, 1⟩,
            .success, .firstCall, 0, 1, 0, 0, 0⟩ := by
        simp [countStep, initLoopVars, memBase]
      have hconv := conv_success cfgOneNef
        ⟨1, 1, 10, 0, 0, 5, 5, [7], [42], 0, 0, 0, 1⟩ 0
      have htemp : arkCheckTemporalError cfgOneNef
          ⟨1, 1, 10, 0, 0, 5, 5, [7], [42], 0, 0, 0, 1⟩ .success 0 2
            (some 1) =
          ⟨.errFailure, ⟨1, 1, 10, 0, 0, 5, 5, [7], [42], 0, 1, 0, 1⟩,
            .prevErrFail, 1⟩ := by
        norm_num [arkCheckTemporalError, applyEtaBounds, cfgOneNef, cfgAdapt,
          cfgFixed]
      have hres : outErrTest.res = .ok 2 := rfl
      have hyc : outErrTest.ycur = [42] := rfl
      have had : outErrTest.adapt = some 1 := rfl
      have hfs : cfgOneNef.fixedstep = false := rfl
      have hcs : cfgOneNef.constraintsSet = false := rfl
      have hfp : cfgOneNef.force_pass = false := rfl
      have hiter : loopIter cfgOneNef (initLoopVars memBase) outErrTest =
          .breakLoop ⟨⟨1, 1, 10, 0, 0, 5, 5, [7], [42], 0, 1, 0, 1⟩,
            .errFailure, .prevErrFail, 2, 1, 0, 1, 0⟩ := by
        simp [loopIter, hcount, hres, hyc, had, hconv, htemp, StepRes.nflag,
          RC.isNeg, hfs, hcs, hfp]
      simp only [attemptPhase, runLoop, hiter]
      norm_num [memRestored, memBase]
      intro h
      simp at h)

/-! ### C10: `ARK_RETRY_STEP` frame property -/

/--
C10: when the stepper reports `ARK_RETRY_STEP` (with adaptive stepping, no
`force_pass` override, and `|h|` above the minimum-step threshold), the
step is reattempted via another loop iteration with no failure accounting:
`ncfn`, `ncf`, `nef` and `constrfails` are unchanged, the next iteration's
attempt accounting is suppressed (`countStep` fixes the resulting state, so
neither `attempts` nor `nst_attempts` is incremented for the reattempt),
and when this iteration is itself such a reattempt its own `attempts` and
`nst_attempts` equal the pre-iteration values.
-/
theorem c10_retry_no_accounting (c : Cfg) (v : LoopVars) (o : StepOutcome)
    (hres : o.res = .retry) (hfs : c.fixedstep = false)
    (hfp : c.force_pass = false) (hh : c.hmin * onepsm < |v.m.h|) :
    (loopIter c v o).isNext = true
    ∧ (loopIter c v o).varsOf.kflag = .retryStep
    ∧ (loopIter c v o).varsOf.ncf = v.ncf
    ∧ (loopIter c v o).varsOf.nef = v.nef
    ∧ (loopIter c v o).varsOf.constrfails = v.constrfails
    ∧ (loopIter c v o).varsOf.m.ncfn = v.m.ncfn
    ∧ countStep ((loopIter c v o).varsOf) = (loopIter c v o).varsOf
    ∧ (v.kflag = .retryStep →
        (loopIter c v o).varsOf.attempts = v.attempts
        ∧ (loopIter c v o).varsOf.m.nst_attempts = v.m.nst_attempts) := by
  obtain ⟨res, yc, ad⟩ := o
  replace hres : res = .retry := hres
  subst hres
  have hnle : ¬(|(countStep v).m.h| ≤ c.hmin * onepsm) := by
    rw [countStep_m_h]
    exact not_le.mpr hh
  have hiter : loopIter c v ⟨.retry, yc, ad⟩ = .next
      { m := { (countStep v).m with
          h := (countStep v).m.h * (countStep v).m.eta }
        kflag := .retryStep, nflag := .retryStep, dsm := (countStep v).dsm
        attempts := (countStep v).attempts, ncf := (countStep v).ncf
        nef := (countStep v).nef
        constrfails := (countStep v).constrfails } := by
    simp [loopIter, conv_retry, StepRes.nflag, RC.isNeg, hfs, hfp, hnle]
  rw [hiter]
  refine ⟨rfl, rfl, countStep_ncf v, countStep_nef v, countStep_constrfails v,
    countStep_m_ncfn v, countStep_of_retry _ rfl, ?_⟩
  intro hk
  rw [countStep_of_retry v hk]
  exact ⟨rfl, rfl⟩

/-- Witness for C10 at a concrete retry outcome. -/
theorem c10_retry_no_accounting_witness :
    (loopIter cfgAdapt (initLoopVars memBase) ⟨.retry, [], none⟩).isNext = true
    ∧ (loopIter cfgAdapt (initLoopVars memBase)
        ⟨.retry, [], none⟩).varsOf.kflag = .retryStep
    ∧ (loopIter cfgAdapt (initLoopVars memBase)
        ⟨.retry, [], none⟩).varsOf.ncf = (initLoopVars memBase).ncf
    ∧ (loopIter cfgAdapt (initLoopVars memBase)
        ⟨.retry, [], none⟩).varsOf.nef = (initLoopVars memBase).nef
    ∧ (loopIter cfgAdapt (initLoopVars memBase)
        ⟨.retry, [], none⟩).varsOf.constrfails
        = (initLoopVars memBase).constrfails
    ∧ (loopIter cfgAdapt (initLoopVars memBase)
        ⟨.retry, [], none⟩).varsOf.m.ncfn = (initLoopVars memBase).m.ncfn
    ∧ countStep ((loopIter cfgAdapt (initLoopVars memBase)
        ⟨.retry, [], none⟩).varsOf)
        = (loopIter cfgAdapt (initLoopVars memBase) ⟨.retry, [], none⟩).varsOf
    ∧ ((initLoopVars memBase).kflag = .retryStep →
        (loopIter cfgAdapt (initLoopVars memBase)
          ⟨.retry, [], none⟩).varsOf.attempts = (initLoopVars memBase).attempts
        ∧ (loopIter cfgAdapt (initLoopVars memBase)
            ⟨.retry, [], none⟩).varsOf.m.nst_attempts
            = (initLoopVars memBase).m.nst_attempts) :=
  c10_retry_no_accounting cfgAdapt (initLoopVars memBase) ⟨.retry, [], none⟩
    rfl rfl rfl (by norm_num [cfgAdapt, cfgFixed, initLoopVars, memBase, onepsm])

/-! ### C4: step-size-ratio clamping -/

/--
C4 (counterexample): a convergence-failure retry applies `eta = etacf`
directly: with `hmin = 9/10` and `|h| = 1` the loop continues with
`h := h * (1/4)` although `1/4` lies below the claimed clamp interval
`[hmin/|h|, etamax]`, so `eta` is applied without the claimed clamping.
-/
theorem c4_unclamped_eta_counterexample :
    loopIter cfgTightHmin (initLoopVars memBase) ⟨.convFail, [7], none⟩
      = .next ⟨⟨1 * (1 / 4), 1 / 4, 1, 0, 0, 5, 5, [7], [7], 1, 0, 0, 1⟩,
          .predictAgain, .prevConvFail, 0, 1, 1, 0, 0⟩
    ∧ (1 / 4 : ℚ) < cfgTightHmin.hmin / |memBase.h| := by
  have hcount : countStep (initLoopVars memBase) =
      ⟨⟨1, 1, 10, 0, 0, 5, 5, [7], [7], 0, 0, 0, 1⟩,
        .success, .firstCall, 0, 1, 0, 0, 0⟩ := by
    simp [countStep, initLoopVars, memBase]
  have hconv : arkCheckConvergence cfgTightHmin
      ⟨1, 1, 10, 0, 0, 5, 5, [7], [7], 0, 0, 0, 1⟩ .convFail 0 =
      ⟨.predictAgain, ⟨1, 1 / 4, 1, 0, 0, 5, 5, [7], [7], 1, 0, 0, 1⟩,
        .prevConvFail, 1⟩ := by
    have f : ¬((1 : ℚ) ≤ 9 / 10 * onepsm) := by norm_num [onepsm]
    simp [arkCheckConvergence, NFlag.isNeg, cfgTightHmin, cfgAdapt,
      cfgFixed, f]
  have hfs : cfgTightHmin.fixedstep = false := rfl
  have hcs : cfgTightHmin.constraintsSet = false := rfl
  have hfp : cfgTightHmin.force_pass = false := rfl
  have fh : ¬((1 : ℚ) ≤ cfgTightHmin.hmin * onepsm) := by
    norm_num [cfgTightHmin, cfgAdapt, cfgFixed, onepsm]
  constructor
  · simp [loopIter, hcount, hconv, StepRes.nflag, RC.isNeg, hfs, hcs, hfp, fh]
  · norm_num [cfgTightHmin, cfgAdapt, cfgFixed, memBase]

/--
C4 (amended): the clamp of `eta` into `[hmin/|h|, etamax]` followed by the
division by `max(1, |h|*hmax_inv*eta)` is applied exactly on the
temporal-error-test path — both on acceptance and on an error-test failure
(there with `etamax` pinned to 1 and, once `nef ≥ small_nef`, the extra
`etamxf` shrink bound applied in between); a convergence-failure retry
instead applies the fixed factor `eta = etacf` and a constraint-failure
retry applies `eta = max(0.9*minQuotient(yn, mask*(yn-ycur)), 0.1)`, in
both cases without those bounds.
-/
theorem c4_eta_bounds_policy (c : Cfg) (m : ArkMem) (nf : NFlag)
    (ncf nef cf : ℕ) (dsm e : ℚ) :
    ((arkCheckTemporalError c m nf nef dsm (some e)).rc = .success →
      (arkCheckTemporalError c m nf nef dsm (some e)).m.eta
        = applyEtaBounds m.etamax c.hmin |m.h| c.hmax_inv e)
    ∧ ((arkCheckTemporalError c m nf nef dsm (some e)).rc = .tryAgain →
      (arkCheckTemporalError c m nf nef dsm (some e)).m.eta
        = applyEtaBounds 1 c.hmin |m.h| c.hmax_inv
            (if c.small_nef ≤ nef + 1 then
              min (applyEtaBounds m.etamax c.hmin |m.h| c.hmax_inv e)
                c.etamxf
            else applyEtaBounds m.etamax c.hmin |m.h| c.hmax_inv e))
    ∧ ((arkCheckConvergence c m nf ncf).rc = .predictAgain →
      (arkCheckConvergence c m nf ncf).m.eta = c.etacf)
    ∧ ((arkCheckConstraints c m nf cf).rc = .constrRecvr →
      (arkCheckConstraints c m nf cf).m.eta
        = max ((9 / 10) * nvMinQuotient m.yn
            (nvProd (nvConstrMask c.constraints m.ycur).2
              (nvLinearSum 1 m.yn (-1) m.ycur))) (1 / 10)) := by
  refine ⟨?_, ?_, ?_, ?_⟩
  · intro hrc
    by_cases h1 : dsm ≤ 1
    · simp [arkCheckTemporalError, h1]
    · by_cases h2 : nef + 1 = c.maxnef <;>
        simp [arkCheckTemporalError, h1, h2] at hrc ⊢
  · intro hrc
    by_cases h1 : dsm ≤ 1
    · simp [arkCheckTemporalError, h1] at hrc
    · by_cases h2 : nef + 1 = c.maxnef
      · simp [arkCheckTemporalError, h1, h2] at hrc
      · by_cases h3 : c.small_nef ≤ nef + 1 <;>
          simp [arkCheckTemporalError, h1, h2, h3]
  · intro hrc
    cases nf <;>
      simp_all [arkCheckConvergence, NFlag.isNeg] <;>
      split_ifs at hrc ⊢ <;> simp_all [RC.isNeg]
  · intro hrc
    rw [arkCheckConstraints] at hrc ⊢
    split_ifs at hrc ⊢ with h1 h2 h3 h4 <;>
      simp_all [RC.isNeg] <;>
      split_ifs at hrc ⊢ <;> simp_all [RC.isNeg]

/-- Witness for C4 (amended) at an accepted step with `dsm = 1/2`. -/
theorem c4_eta_bounds_policy_witness :
    ((arkCheckTemporalError cfgAdapt memBase .success 0 (1 / 2)
        (some 3)).rc = .success →
      (arkCheckTemporalError cfgAdapt memBase .success 0 (1 / 2)
          (some 3)).m.eta
        = applyEtaBounds memBase.etamax cfgAdapt.hmin |memBase.h|
            cfgAdapt.hmax_inv 3)
    ∧ ((arkCheckTemporalError cfgAdapt memBase .success 0 (1 / 2)
        (some 3)).rc = .tryAgain →
      (arkCheckTemporalError cfgAdapt memBase .success 0 (1 / 2)
          (some 3)).m.eta
        = applyEtaBounds 1 cfgAdapt.hmin |memBase.h| cfgAdapt.hmax_inv
            (if cfgAdapt.small_nef ≤ 0 + 1 then
              min (applyEtaBounds memBase.etamax cfgAdapt.hmin |memBase.h|
                cfgAdapt.hmax_inv 3) cfgAdapt.etamxf
            else applyEtaBounds memBase.etamax cfgAdapt.hmin |memBase.h|
              cfgAdapt.hmax_inv 3))
    ∧ ((arkCheckConvergence cfgAdapt memBase .success 0).rc
          = .predictAgain →
      (arkCheckConvergence cfgAdapt memBase .success 0).m.eta
        = cfgAdapt.etacf)
    ∧ ((arkCheckConstraints cfgAdapt memBase .success 0).rc
          = .constrRecvr →
      (arkCheckConstraints cfgAdapt memBase .success 0).m.eta
        = max ((9 / 10) * nvMinQuotient memBase.yn
            (nvProd (nvConstrMask cfgAdapt.constraints memBase.ycur).2
              (nvLinearSum 1 memBase.yn (-1) memBase.ycur))) (1 / 10)) :=
  c4_eta_bounds_policy cfgAdapt memBase .success 0 0 0 (1 / 2) 3

/-! ### C2: bound on step attempts per step -/

/--
C2 (counterexample): with constraint handling enabled, a run of three
constraint-failure retries, a convergence failure, an error-test failure
and a final fatal convergence failure executes 6 step attempts before the
fatal `ARK_CONV_FAILURE` return, exceeding the claimed bound
`maxncf + maxnef + 1 = 5`.
-/
theorem c2_attempt_bound_counterexample :
    runLoop cfgC2 [oConstrFail, oConstrFail, oConstrFail, oConvFail, oBigDsm,
        oConvFail] (initLoopVars memC2)
      = .broke ⟨⟨1, 1, 1, 0, 0, 5, 5, [10], [1], 2, 1, 3, 6⟩,
          .convFailure, .convFail, 2, 6, 2, 1, 3⟩
    ∧ cfgC2.maxncf + cfgC2.maxnef + 1 < 6 := by
  have hmask1 : nvConstrMask [-1] [1] = (false, [1]) := by
    norm_num [nvConstrMask, constrOK]
  have hmask2 : nvConstrMask [-1] [-2] = (true, [0]) := by
    norm_num [nvConstrMask, constrOK]
  have hdiff : nvProd [1] (nvLinearSum 1 [10] (-1) [1]) = [9] := by
    norm_num [nvProd, nvLinearSum]
  have hminq : nvMinQuotient [10] [9] = 10 / 9 := by
    norm_num [nvMinQuotient, bigReal]
  have heta : max ((9 : ℚ) / 10 * (10 / 9)) (1 / 10) = 1 := by norm_num
  have hmax10 : max (1 : ℚ) 0 = 1 := by norm_num
  have hle10 : ¬((1 : ℚ) ≤ 0) := by norm_num
  have hsup1 : ((1 : ℚ) ⊔ 10⁻¹) = 1 := by norm_num
  have hsup0 : ((1 : ℚ) ⊔ 0) = 1 := by norm_num
  have hconstr : ∀ (m : ArkMem) (nfl : NFlag) (cf : ℕ), m.ycur = [1] →
      m.yn = [10] → m.h = 1 → cf + 1 ≠ 4 →
      arkCheckConstraints cfgC2 m nfl cf =
        ⟨.constrRecvr,
          { m with nconstrfails := m.nconstrfails + 1, eta := 1 },
          .prevConvFail, cf + 1⟩ := by
    intro m nfl cf h1 h2 h3 h4
    simp [arkCheckConstraints, cfgC2, h1, h2, h3, h4, hmask1, hdiff, hminq,
      heta, hle10, hsup1, hsup0]
  have hconstrPass : ∀ (m : ArkMem) (nfl : NFlag) (cf : ℕ), m.ycur = [-2] →
      arkCheckConstraints cfgC2 m nfl cf = ⟨.success, m, nfl, cf⟩ := by
    intro m nfl cf h1
    simp [arkCheckConstraints, cfgC2, h1, hmask2]
  have hconvf : ∀ (m : ArkMem) (ncf : ℕ), m.h = 1 → ncf + 1 ≠ 2 →
      arkCheckConvergence cfgC2 m .convFail ncf =
        ⟨.predictAgain,
          { m with ncfn := m.ncfn + 1, etamax := 1, eta := 1 },
          .prevConvFail, ncf + 1⟩ := by
    intro m ncf h1 h2
    simp [arkCheckConvergence, NFlag.isNeg, cfgC2, h1, h2]
  have hconvf2 : ∀ m : ArkMem,
      arkCheckConvergence cfgC2 m .convFail 1 =
        ⟨.convFailure, { m with ncfn := m.ncfn + 1, etamax := 1 },
          .convFail, 2⟩ := by
    intro m
    simp [arkCheckConvergence, NFlag.isNeg, cfgC2]
  have htempo : ∀ m : ArkMem, m.h = 1 → m.etamax = 1 →
      arkCheckTemporalError cfgC2 m .success 0 2 (some 1) =
        ⟨.tryAgain, { m with eta := 1, netf := m.netf + 1, etamax := 1 },
          .prevErrFail, 1⟩ := by
    intro m h1 h2
    simp [arkCheckTemporalError, applyEtaBounds, cfgC2, h1, h2, hmax10,
      hle10, hsup1, hsup0]
  have pcs : cfgC2.constraintsSet = true := rfl
  have pfs : cfgC2.fixedstep = false := rfl
  have pfp : cfgC2.force_pass = false := rfl
  have phm : cfgC2.hmin = 0 := rfl
  refine ⟨?_, by norm_num [cfgC2]⟩
  simp [runLoop, loopIter, countStep, initLoopVars, memC2, memBase,
    oConstrFail, oConvFail, oBigDsm, conv_success, hconstr, hconstrPass,
    hconvf, hconvf2, htempo, StepRes.nflag, RC.isNeg, pcs, pfs, pfp, phm,
    hle10]

/-! ### C2 (amended): the general attempt bound -/

theorem loopIter_eq_fail (c : Cfg) (v : LoopVars) (o : StepOutcome) (rc : RC)
    (h : o.res = .fail rc) :
    loopIter c v o = .breakLoop
      { countStep v with
        kflag := rc
        m := { (countStep v).m with ycur := o.ycur } } := by
  obtain ⟨res, ycur, adapt⟩ := o
  simp only at h
  subst h
  rfl

theorem loopIter_eq_tail (c : Cfg) (v : LoopVars) (o : StepOutcome)
    (h : ∀ rc, o.res ≠ .fail rc) :
    loopIter c v o = convTail c
      (arkCheckConvergence c
        (if o.res = .retry then (countStep v).m
          else { (countStep v).m with ycur := o.ycur })
        o.res.nflag (countStep v).ncf)
      (countStep v).attempts (countStep v).nef (countStep v).constrfails
      (match o.res with
        | .ok d => d
        | _ => (countStep v).dsm) o.adapt := by
  obtain ⟨res, ycur, adapt⟩ := o
  cases res
  case fail rc => exact absurd rfl (h rc)
  all_goals rfl

theorem countStep_attempts_of_inv (c : Cfg) (v : LoopVars)
    (hv : LoopInv c v) :
    (countStep v).attempts ≤ v.ncf + v.nef + v.constrfails + 1 := by
  obtain ⟨h1, -, -, -⟩ := hv
  by_cases hk : v.kflag = RC.retryStep
  · rw [countStep_of_retry v hk]
    simp only [if_pos hk] at h1
    omega
  · rw [countStep, if_neg hk]
    simp only [if_neg hk] at h1
    simpa using h1

theorem loopInv_attempts (c : Cfg) (v : LoopVars) (hv : LoopInv c v) :
    v.attempts + 1 ≤ c.maxncf + c.maxnef + cfCap c := by
  obtain ⟨h1, h2, h3, h4⟩ := hv
  by_cases hk : v.kflag = RC.retryStep
  · simp only [if_pos hk] at h1
    omega
  · simp only [if_neg hk] at h1
    omega

theorem tempTail_inv (c : Cfg) (r3 : CheckOut) (A ncf1 cf1 : ℕ) (dsm : ℚ)
    (hAb : A + 1 ≤ c.maxncf + c.maxnef + cfCap c)
    (h2 : ncf1 + 1 ≤ c.maxncf) (h4 : cf1 ≤ cfCap c)
    (hcase :
      (r3.rc = .retryStep ∧ r3.cnt + 1 ≤ c.maxnef
        ∧ A ≤ ncf1 + r3.cnt + cf1 + 1)
      ∨ (r3.rc = .predictAgain ∧ r3.cnt + 1 ≤ c.maxnef
        ∧ A ≤ ncf1 + r3.cnt + cf1)
      ∨ (r3.rc = .constrRecvr ∧ r3.cnt + 1 ≤ c.maxnef
        ∧ A ≤ ncf1 + r3.cnt + cf1)
      ∨ (r3.rc = .tryAgain ∧ r3.cnt + 1 ≤ c.maxnef
        ∧ A ≤ ncf1 + r3.cnt + cf1)
      ∨ r3.rc = .success ∨ r3.rc.isNeg = true) :
    (∀ v', tempTail c r3 A ncf1 cf1 dsm = .next v' → LoopInv c v')
    ∧ (tempTail c r3 A ncf1 cf1 dsm).varsOf.attempts + 1
        ≤ c.maxncf + c.maxnef + cfCap c := by
  rcases hcase with ⟨hr, hm, hA⟩ | ⟨hr, hm, hA⟩ | ⟨hr, hm, hA⟩
    | ⟨hr, hm, hA⟩ | hr | hr
  · simp only [tempTail, hr, RC.isNeg]
    simp only [Bool.false_eq_true, if_false, reduceCtorEq, if_false]
    split_ifs with hfp hmin
    · exact ⟨fun v' hv' => by simp at hv',
        by simpa [IterResult.varsOf] using hAb⟩
    · exact ⟨fun v' hv' => by simp at hv',
        by simpa [IterResult.varsOf] using hAb⟩
    · refine ⟨?_, by simpa [IterResult.varsOf] using hAb⟩
      intro v' hv'
      injection hv' with hv''
      subst hv''
      refine ⟨?_, ?_, ?_, ?_⟩ <;> simp <;> omega
  · simp only [tempTail, hr, RC.isNeg]
    simp only [Bool.false_eq_true, if_false, reduceCtorEq, if_false]
    split_ifs with hfp hmin
    · exact ⟨fun v' hv' => by simp at hv',
        by simpa [IterResult.varsOf] using hAb⟩
    · exact ⟨fun v' hv' => by simp at hv',
        by simpa [IterResult.varsOf] using hAb⟩
    · refine ⟨?_, by simpa [IterResult.varsOf] using hAb⟩
      intro v' hv'
      injection hv' with hv''
      subst hv''
      refine ⟨?_, ?_, ?_, ?_⟩ <;> simp <;> omega
  · simp only [tempTail, hr, RC.isNeg]
    simp only [Bool.false_eq_true, if_false, reduceCtorEq, if_false]
    split_ifs with hfp hmin
    · exact ⟨fun v' hv' => by simp at hv',
        by simpa [IterResult.varsOf] using hAb⟩
    · exact ⟨fun v' hv' => by simp at hv',
        by simpa [IterResult.varsOf] using hAb⟩
    · refine ⟨?_, by simpa [IterResult.varsOf] using hAb⟩
      intro v' hv'
      injection hv' with hv''
      subst hv''
      refine ⟨?_, ?_, ?_, ?_⟩ <;> simp <;> omega
  · simp only [tempTail, hr, RC.isNeg]
    simp only [Bool.false_eq_true, if_false, reduceCtorEq, if_false]
    split_ifs with hfp hmin
    · exact ⟨fun v' hv' => by simp at hv',
        by simpa [IterResult.varsOf] using hAb⟩
    · exact ⟨fun v' hv' => by simp at hv',
        by simpa [IterResult.varsOf] using hAb⟩
    · refine ⟨?_, by simpa [IterResult.varsOf] using hAb⟩
      intro v' hv'
      injection hv' with hv''
      subst hv''
      refine ⟨?_, ?_, ?_, ?_⟩ <;> simp <;> omega
  · simp only [tempTail, hr, RC.isNeg]
    simp only [Bool.false_eq_true, if_false, if_pos rfl]
    split_ifs with hfp
    · exact ⟨fun v' hv' => by simp at hv',
        by simpa [IterResult.varsOf] using hAb⟩
    · exact ⟨fun v' hv' => by simp at hv',
        by simpa [IterResult.varsOf] using hAb⟩
  · simp only [tempTail, hr, if_pos rfl]
    exact ⟨fun v' hv' => by simp at hv',
      by simpa [IterResult.varsOf] using hAb⟩

theorem constrTail_inv (c : Cfg) (r2 : CheckOut) (A ncf1 nef0 : ℕ)
    (dsm : ℚ) (adapt : Option ℚ)
    (hAb : A + 1 ≤ c.maxncf + c.maxnef + cfCap c)
    (h2 : ncf1 + 1 ≤ c.maxncf) (h3 : nef0 + 1 ≤ c.maxnef)
    (hcase :
      (r2.rc = .retryStep ∧ r2.cnt ≤ cfCap c
        ∧ A ≤ ncf1 + nef0 + r2.cnt + 1)
      ∨ (r2.rc = .predictAgain ∧ r2.cnt ≤ cfCap c
        ∧ A ≤ ncf1 + nef0 + r2.cnt)
      ∨ (r2.rc = .success ∧ r2.cnt ≤ cfCap c
        ∧ A ≤ ncf1 + nef0 + r2.cnt + 1)
      ∨ (r2.rc = .constrRecvr ∧ r2.cnt ≤ cfCap c
        ∧ A ≤ ncf1 + nef0 + r2.cnt)
      ∨ r2.rc.isNeg = true) :
    (∀ v', constrTail c r2 A ncf1 nef0 dsm adapt = .next v' → LoopInv c v')
    ∧ (constrTail c r2 A ncf1 nef0 dsm adapt).varsOf.attempts + 1
        ≤ c.maxncf + c.maxnef + cfCap c := by
  rcases hcase with ⟨hr, hcap, hA⟩ | ⟨hr, hcap, hA⟩ | ⟨hr, hcap, hA⟩
    | ⟨hr, hcap, hA⟩ | hr
  · simp only [constrTail, hr, RC.isNeg]
    simp only [Bool.false_eq_true, if_false, reduceCtorEq, if_false]
    split_ifs with hfs
    · exact ⟨fun v' hv' => by simp at hv',
        by simpa [IterResult.varsOf] using hAb⟩
    · exact tempTail_inv c _ A ncf1 r2.cnt dsm hAb h2 hcap
        (Or.inl ⟨rfl, h3, hA⟩)
  · simp only [constrTail, hr, RC.isNeg]
    simp only [Bool.false_eq_true, if_false, reduceCtorEq, if_false]
    split_ifs with hfs
    · exact ⟨fun v' hv' => by simp at hv',
        by simpa [IterResult.varsOf] using hAb⟩
    · exact tempTail_inv c _ A ncf1 r2.cnt dsm hAb h2 hcap
        (Or.inr (Or.inl ⟨rfl, h3, hA⟩))
  · simp only [constrTail, hr, RC.isNeg]
    simp only [Bool.false_eq_true, if_false, if_pos rfl]
    split_ifs with hfs
    · exact ⟨fun v' hv' => by simp at hv',
        by simpa [IterResult.varsOf] using hAb⟩
    · rcases temporal_rc_cases c r2.m r2.nflag nef0 dsm adapt with
        ⟨ht, hc⟩ | ⟨ht, hc, hn⟩ | ⟨ht, hc⟩
      · exact tempTail_inv c _ A ncf1 r2.cnt dsm hAb h2 hcap
          (Or.inr (Or.inr (Or.inr (Or.inr (Or.inl ht)))))
      · refine tempTail_inv c _ A ncf1 r2.cnt dsm hAb h2 hcap
          (Or.inr (Or.inr (Or.inr (Or.inl ⟨ht, ?_, ?_⟩)))) <;>
          rw [hc] <;> omega
      · exact tempTail_inv c _ A ncf1 r2.cnt dsm hAb h2 hcap
          (Or.inr (Or.inr (Or.inr (Or.inr (Or.inr ht)))))
  · simp only [constrTail, hr, RC.isNeg]
    simp only [Bool.false_eq_true, if_false, reduceCtorEq, if_false]
    split_ifs with hfs
    · exact ⟨fun v' hv' => by simp at hv',
        by simpa [IterResult.varsOf] using hAb⟩
    · exact tempTail_inv c _ A ncf1 r2.cnt dsm hAb h2 hcap
        (Or.inr (Or.inr (Or.inl ⟨rfl, h3, hA⟩)))
  · simp only [constrTail, hr, if_pos rfl]
    exact ⟨fun v' hv' => by simp at hv',
      by simpa [IterResult.varsOf] using hAb⟩

theorem convTail_inv (c : Cfg) (r1 : CheckOut) (A ncf0 nef0 cf0 : ℕ)
    (dsm : ℚ) (adapt : Option ℚ)
    (hmcf : c.constraintsSet = true → 1 ≤ c.maxconstrfails)
    (h2 : ncf0 + 1 ≤ c.maxncf) (h3 : nef0 + 1 ≤ c.maxnef)
    (h4 : cf0 ≤ cfCap c) (hA : A ≤ ncf0 + nef0 + cf0 + 1)
    (hconv :
      (r1.rc = .success ∧ r1.cnt = ncf0)
      ∨ (r1.rc = .retryStep ∧ r1.cnt = ncf0)
      ∨ (r1.rc = .predictAgain ∧ r1.cnt = ncf0 + 1
        ∧ ncf0 + 1 ≠ c.maxncf)
      ∨ (r1.rc.isNeg = true ∧ (r1.cnt = ncf0 ∨ r1.cnt = ncf0 + 1))) :
    (∀ v', convTail c r1 A nef0 cf0 dsm adapt = .next v' → LoopInv c v')
    ∧ (convTail c r1 A nef0 cf0 dsm adapt).varsOf.attempts + 1
        ≤ c.maxncf + c.maxnef + cfCap c := by
  have hAb : A + 1 ≤ c.maxncf + c.maxnef + cfCap c := by omega
  rcases hconv with ⟨hr, hc⟩ | ⟨hr, hc⟩ | ⟨hr, hc, hn⟩ | ⟨hr, hc⟩
  · simp only [convTail, hr, RC.isNeg]
    simp only [Bool.false_eq_true, if_false, and_true]
    by_cases hcs : c.constraintsSet = true
    · simp only [hcs, if_pos trivial, if_pos rfl]
      have h1c := hmcf hcs
      have hccap : cfCap c = c.maxconstrfails - 1 := by
        simp [cfCap, hcs]
      rcases constr_rc_cases c r1.m r1.nflag cf0 with
        ⟨hs, hsc⟩ | ⟨hs, hsc, hsn⟩ | ⟨hs, hsc⟩
      · exact constrTail_inv c _ A r1.cnt nef0 dsm adapt hAb (by omega) h3
          (Or.inr (Or.inr (Or.inl ⟨hs, by omega, by omega⟩)))
      · exact constrTail_inv c _ A r1.cnt nef0 dsm adapt hAb (by omega) h3
          (Or.inr (Or.inr (Or.inr (Or.inl ⟨hs, by omega, by omega⟩))))
      · exact constrTail_inv c _ A r1.cnt nef0 dsm adapt hAb (by omega) h3
          (Or.inr (Or.inr (Or.inr (Or.inr hs))))
    · simp only [hcs, Bool.false_eq_true, false_and, if_false]
      exact constrTail_inv c _ A r1.cnt nef0 dsm adapt hAb (by omega) h3
        (Or.inr (Or.inr (Or.inl ⟨rfl, (by omega : cf0 ≤ cfCap c),
          (by omega : A ≤ r1.cnt + nef0 + cf0 + 1)⟩)))
  · simp only [convTail, hr, RC.isNeg]
    simp only [Bool.false_eq_true, if_false, reduceCtorEq, and_false,
      if_false]
    exact constrTail_inv c _ A r1.cnt nef0 dsm adapt hAb (by omega) h3
      (Or.inl ⟨rfl, (by omega : cf0 ≤ cfCap c),
        (by omega : A ≤ r1.cnt + nef0 + cf0 + 1)⟩)
  · simp only [convTail, hr, RC.isNeg]
    simp only [Bool.false_eq_true, if_false, reduceCtorEq, and_false,
      if_false]
    exact constrTail_inv c _ A r1.cnt nef0 dsm adapt hAb (by omega) h3
      (Or.inr (Or.inl ⟨rfl, (by omega : cf0 ≤ cfCap c),
        (by omega : A ≤ r1.cnt + nef0 + cf0)⟩))
  · simp only [convTail, hr, if_pos rfl]
    exact ⟨fun v' hv' => by simp at hv',
      by simpa [IterResult.varsOf] using hAb⟩

theorem loopIter_preserves (c : Cfg) (v : LoopVars) (o : StepOutcome)
    (hmcf : c.constraintsSet = true → 1 ≤ c.maxconstrfails)
    (hv : LoopInv c v) :
    (∀ v', loopIter c v o = .next v' → LoopInv c v')
    ∧ (loopIter c v o).varsOf.attempts + 1
        ≤ c.maxncf + c.maxnef + cfCap c := by
  have hmid := countStep_attempts_of_inv c v hv
  obtain ⟨h1, h2, h3, h4⟩ := hv
  by_cases hfail : ∃ rc, o.res = .fail rc
  · obtain ⟨rc, hres⟩ := hfail
    rw [loopIter_eq_fail c v o rc hres]
    refine ⟨fun v' hv' => by simp at hv', ?_⟩
    have hproj : (IterResult.breakLoop
        { countStep v with
          kflag := rc
          m := { (countStep v).m with ycur := o.ycur } }).varsOf.attempts
        = (countStep v).attempts := rfl
    rw [hproj]
    omega
  · push_neg at hfail
    rw [loopIter_eq_tail c v o hfail]
    simp only [countStep_ncf, countStep_nef, countStep_constrfails]
    exact convTail_inv c _ (countStep v).attempts v.ncf v.nef v.constrfails
      _ _ hmcf h2 h3 h4 hmid
      (conv_rc_cases c _ o.res.nflag v.ncf (stepRes_nflag_fromStepper o.res))

theorem runLoop_attempts_of_inv (c : Cfg)
    (hmcf : c.constraintsSet = true → 1 ≤ c.maxconstrfails) :
    ∀ (os : List StepOutcome) (v : LoopVars), LoopInv c v →
      (runLoop c os v).varsOf.attempts + 1 ≤ c.maxncf + c.maxnef + cfCap c
  | [], v, hv => by
    simpa [runLoop, LoopOutcome.varsOf] using loopInv_attempts c v hv
  | o :: rest, v, hv => by
    obtain ⟨hnext, hbound⟩ := loopIter_preserves c v o hmcf hv
    cases hit : loopIter c v o with
    | next v' =>
      have he : runLoop c (o :: rest) v = runLoop c rest v' := by
        simp [runLoop, hit]
      rw [he]
      exact runLoop_attempts_of_inv c hmcf rest v' (hnext v' hit)
    | breakLoop v' =>
      have he : runLoop c (o :: rest) v = .broke v' := by
        simp [runLoop, hit]
      rw [hit] at hbound
      simpa [he, LoopOutcome.varsOf, IterResult.varsOf] using hbound
    | errReturn v' =>
      have he : runLoop c (o :: rest) v = .errReturn v' := by
        simp [runLoop, hit]
      rw [hit] at hbound
      simpa [he, LoopOutcome.varsOf, IterResult.varsOf] using hbound

/--
C2 (amended): for every step of `ARKodeEvolve` with positive failure limits
(and, when constraint handling is enabled, a positive `maxconstrfails`),
however the step-attempt loop ends — success, fatal break, direct error
return, or still running — the number of executed attempts is at most
`maxncf + maxnef + (maxconstrfails - 1)` with constraint handling enabled
and `maxncf + maxnef - 1` without it; the claimed bound `maxncf + maxnef
+ 1` therefore holds only in the latter case, constraint-failure retries
being counted attempts that increment neither `ncf` nor `nef`.
-/
theorem c2_attempt_bound (c : Cfg) (os : List StepOutcome) (m : ArkMem)
    (hncf : 1 ≤ c.maxncf) (hnef : 1 ≤ c.maxnef)
    (hmcf : c.constraintsSet = true → 1 ≤ c.maxconstrfails) :
    (runLoop c os (initLoopVars m)).varsOf.attempts + 1
      ≤ c.maxncf + c.maxnef + cfCap c := by
  apply runLoop_attempts_of_inv c hmcf os
  refine ⟨?_, ?_, ?_, ?_⟩
  · simp [initLoopVars]
  · simpa [initLoopVars] using hncf
  · simpa [initLoopVars] using hnef
  · simp [initLoopVars]

/-- Witness for C2 (amended) at the constraint-enabled configuration of the
counterexample. -/
theorem c2_attempt_bound_witness :
    1 ≤ cfgC2.maxncf ∧ 1 ≤ cfgC2.maxnef ∧ 1 ≤ cfgC2.maxconstrfails
    ∧ (runLoop cfgC2 [oConstrFail, oConstrFail, oConstrFail, oConvFail,
          oBigDsm, oConvFail] (initLoopVars memC2)).varsOf.attempts + 1
        ≤ cfgC2.maxncf + cfgC2.maxnef + cfCap cfgC2 :=
  ⟨by decide, by decide, by decide,
    c2_attempt_bound cfgC2 [oConstrFail, oConstrFail, oConstrFail, oConvFail,
        oBigDsm, oConvFail] memC2 (by decide) (by decide)
      (fun _ => by decide)⟩

end Arkode
